import Mathlib

/-!
# singbox-launcher: subscription-to-outbound translation pipeline

A shallow embedding of the parts of the launcher that turn a subscription
(a list of proxy links) into outbound descriptors:

* Go string helpers (`strings.TrimSpace`, `strings.Split`, `strings.Contains`);
* the data model (`ParsedNode`, `FilterRule`, `ProxySource`, `ParserConfig`);
* the link loop of `parseAndPreview` (`ui/config_wizard.go`);
* the components of `core` that the wizard and the integration test call
  (`ParseNode`, `ProcessProxySource`, `DecodeSubscriptionContent`,
  `NormalizeParserConfig`, the filter engine and the tag allocator).

Go strings are modelled by `String`, byte slices by `List Nat` with every
element below 256, and a Go `map[string]int` by an association list.
-/

namespace SingboxLauncher

set_option linter.dupNamespace false

/-! ## Go string helpers -/

/-- Go `unicode.IsSpace`: the Latin-1 space characters and the Unicode `White_Space` code points. -/
def isSpace (c : Char) : Bool :=
  let n := c.toNat
  n == 0x09 || n == 0x0A || n == 0x0B || n == 0x0C || n == 0x0D || n == 0x20 ||
  n == 0x85 || n == 0xA0 || n == 0x1680 || (0x2000 ≤ n && n ≤ 0x200A) ||
  n == 0x2028 || n == 0x2029 || n == 0x202F || n == 0x205F || n == 0x3000

/-- Removal of trailing characters that satisfy `p` -/
def dropTrailing (p : Char → Bool) (cs : List Char) : List Char :=
  (cs.reverse.dropWhile p).reverse

/-- Go `strings.TrimSpace`: the string without leading and trailing white space. -/
def TrimSpace (s : String) : String :=
  ⟨dropTrailing isSpace (s.data.dropWhile isSpace)⟩

/-- Pieces of a character list between occurrences of `sep`; there is always at least one piece. -/
def splitChars (sep : Char) : List Char → List (List Char)
  | [] => [[]]
  | c :: cs =>
    if c = sep then [] :: splitChars sep cs
    else
      match splitChars sep cs with
      | [] => [[c]]
      | piece :: rest => (c :: piece) :: rest

/-- Go `strings.Split(s, "\n")`. -/
def SplitLines (s : String) : List String :=
  (splitChars '\n' s.data).map String.mk

/-- Go `strings.Contains(s, sub)`: `sub` occurs in `s` as a contiguous run. -/
def Contains (s sub : String) : Bool :=
  s.data.tails.any (fun t => sub.data.isPrefixOf t)

/-- Letter case folded away: the ASCII capital letters replaced by their small letters. -/
def foldCase (s : String) : String :=
  ⟨s.data.map Char.toLower⟩

/-- Go `strings.HasPrefix` on character lists; the remainder after the prefix when it is there. -/
def stripPrefix (p : List Char) (cs : List Char) : Option (List Char) :=
  if p.isPrefixOf cs then some (cs.drop p.length) else none

/-- Split at the first occurrence of `sep`: the part before, and the part after when `sep` occurs. -/
def cutFirst (sep : Char) : List Char → List Char × Option (List Char)
  | [] => ([], none)
  | c :: cs =>
    if c = sep then ([], some cs)
    else
      let r := cutFirst sep cs
      (c :: r.1, r.2)

/-- Split at the last occurrence of `sep`: the part before it when `sep` occurs, and the part after. -/
def cutLast (sep : Char) (cs : List Char) : Option (List Char) × List Char :=
  let r := cutFirst sep cs.reverse
  (r.2.map List.reverse, r.1.reverse)

/-! ## Data model -/

/-- Modelled from the spec: the closed set of protocols of a node (section 3); the four families
are those whose scheme prefixes `checkURL` of the wizard accepts. -/
inductive Protocol where
  | vless
  | vmess
  | trojan
  | shadowsocks
  deriving DecidableEq, Repr

/-- Modelled from the spec: the `type` a descriptor carries for each protocol. -/
def Protocol.typeName : Protocol → String
  | .vless => "vless"
  | .vmess => "vmess"
  | .trojan => "trojan"
  | .shadowsocks => "shadowsocks"

/-- Modelled from the spec: the protocol-specific credential of a node (UUID, password, or cipher
and password pair). -/
inductive Identity where
  | uuid (id : String)
  | password (pw : String)
  | cipherPassword (cipher pw : String)
  deriving DecidableEq, Repr

/-- JSON-compatible values of a descriptor (Go `interface{}` inside `map[string]interface{}`). -/
inductive JVal where
  | str (s : String)
  | num (n : Int)
  | bool (b : Bool)
  | obj (fields : List (String × JVal))

/-- Wire-format descriptor: Go `map[string]interface{}`, as key/value pairs. -/
abbrev Descriptor := List (String × JVal)

/-- Value stored under a key of a descriptor. -/
def Descriptor.get (d : Descriptor) (key : String) : Option JVal :=
  d.lookup key

/-- Modelled from the spec: `core.ParsedNode`, the canonical representation of one proxy endpoint
(section 3); its declaration is absent. -/
structure ParsedNode where
  Protocol : Protocol
  Identity : Identity
  Server : String
  Port : Nat
  TransportOptions : List (String × String)
  DisplayName : String
  Tag : String
  Outbound : Option Descriptor

/-- Modelled from the spec: one skip or match rule, a mapping from a field name to a pattern
string (an entry of the Go `map[string]string` the wizard passes). -/
structure FilterRule where
  key : String
  pattern : String
  deriving DecidableEq, Repr

/-- One subscription entry (`core.ProxySource`), with the fields the wizard and the integration
test use. -/
structure ProxySource where
  Source : String
  Connections : List String
  Skip : List FilterRule
  deriving DecidableEq, Repr

/-- User-declared selector specification (`core.OutboundConfig`), with the fields the default
template of the wizard shows; `OutboundType` is the Go field `Type`. -/
structure OutboundConfig where
  Tag : String
  OutboundType : String
  Options : List (String × JVal)
  Proxies : List FilterRule
  AddOutbounds : List String
  Comment : String

/-- Reload and bookkeeping settings of a parser configuration. -/
structure ParserSettings where
  Reload : String
  LastUpdated : String
  deriving DecidableEq, Repr

/-- The nested `ParserConfig` block of the meta-document. -/
structure ParserConfigBody where
  Version : Int
  Proxies : List ProxySource
  Outbounds : List OutboundConfig
  Parser : ParserSettings

/-- The versioned meta-document (`core.ParserConfig`): the legacy top-level version and the
nested block. -/
structure ParserConfig where
  Version : Int
  ParserConfig : ParserConfigBody

/-- Tag usage ledger: Go `map[string]int`; the first entry for a key is the current one. -/
abbrev TagLedger := List (String × Nat)

/-- Modelled from the spec: the error taxonomy of the core (section 7). -/
inductive PipelineError where
  | UnsupportedScheme
  | MalformedLink
  | UnsupportedTransport
  | SchemaViolation
  | SourceUnreadable
  deriving DecidableEq, Repr

/-! ## The link loop of `parseAndPreview` (`ui/config_wizard.go`, lines 389-412) -/

/-- Result of a Go call returning `(*ParsedNode, error)`: both components may be nil. -/
abbrev GoParseResult := Option ParsedNode × Option PipelineError

/-- The parser the wizard calls through `parseNodeFromString`. -/
abbrev LinkParser := String → List FilterRule → GoParseResult

/-- Skip filters the loop hands to the parser: those of the first proxy source, else nil. -/
def wizardSkipFilters (proxies : List ProxySource) : List FilterRule :=
  match proxies with
  | p :: _ => p.Skip
  | [] => []

/-- One iteration of the loop `for _, line := range lines` over the accumulated `allNodes`. -/
def parseAndPreview_step (parseNodeFromString : LinkParser) (proxies : List ProxySource)
    (allNodes : List ParsedNode) (line : String) : List ParsedNode :=
  let line := TrimSpace line
  if line = "" then allNodes
  else
    match parseNodeFromString line (wizardSkipFilters proxies) with
    | (_, some _) => allNodes
    | (some node, none) => allNodes ++ [node]
    | (none, none) => allNodes

/-- The node list `allNodes` that `parseAndPreview` builds from the fetched content. -/
def parseAndPreview_nodes (parseNodeFromString : LinkParser) (proxies : List ProxySource)
    (content : String) : List ParsedNode :=
  (SplitLines content).foldl (parseAndPreview_step parseNodeFromString proxies) []

/-- What one line contributes according to the description of the loop: the parser's node for the
trimmed line when the line is not blank and the parser reports no error. -/
def lineContribution (parseNodeFromString : LinkParser) (skip : List FilterRule)
    (line : String) : Option ParsedNode :=
  if TrimSpace line = "" then none
  else
    match parseNodeFromString (TrimSpace line) skip with
    | (some node, none) => some node
    | _ => none

/-! ## Dependencies outside the repository sources -/

/-- Library functions and tables the core relies on: the Go standard library, the per-protocol
key table of the generator and the fetch of a subscription. -/
structure Deps where
  /-- Go `regexp`: `reMatch ci body value` says whether `value` matches the expression `body`,
  ignoring letter case when `ci` is set. -/
  reMatch : Bool → String → String → Bool
  /-- Go `net/url` percent-decoding; `none` for an invalid escape or a result that is not UTF-8. -/
  unescape : String → Option String
  /-- Protocol-specific keys of a descriptor; `none` for an unsupported combination. -/
  transportKeys : Protocol → Identity → List (String × String) → Option Descriptor
  /-- Raw bytes behind a subscription URL; `none` when the source cannot be read. -/
  fetch : String → Option (List Nat)
  /-- Go conversion `string(bytes)`. -/
  textOf : List Nat → String

/-! ## Filter engine (spec section 4.2) -/

/-- A filter pattern after its delimiters are read. -/
inductive Pattern where
  | regex (body : String) (caseInsensitive : Bool)
  | literal (text : String)
  deriving DecidableEq, Repr

/-- Modelled from the spec: the pattern syntax of the filter engine of `core`, whose source is
absent. A leading and a trailing `/` delimit the body, an optional trailing flag `i` asks for
case-insensitive comparison, and without delimiters the whole string is a literal. -/
def parsePattern (p : String) : Pattern :=
  match p.data with
  | '/' :: rest =>
    match rest.reverse with
    | '/' :: bodyRev => .regex ⟨bodyRev.reverse⟩ false
    | 'i' :: '/' :: bodyRev => .regex ⟨bodyRev.reverse⟩ true
    | _ => .literal p
  | _ => .literal p

/-- Modelled from the spec: match of one field value against a pattern string in the absent filter
engine; a delimited body goes to the expression matcher, a literal is searched as a substring. -/
def matchesPattern (D : Deps) (value pattern : String) : Bool :=
  match parsePattern pattern with
  | .regex body ci => D.reMatch ci body value
  | .literal text => Contains value text

/-- Modelled from the spec: the string fields a node exposes to rules. `tag` is the allocated tag,
and the display name (the tag candidate) while no tag is allocated; unknown keys expose nothing. -/
def fieldValue (node : ParsedNode) (key : String) : Option String :=
  if key = "tag" then some (if node.Tag = "" then node.DisplayName else node.Tag)
  else if key = "server" then some node.Server
  else if key = "sni" then some ((node.TransportOptions.lookup "sni").getD "")
  else none

/-- Modelled from the spec: `matches(node, rule)` of the absent filter engine. -/
def ruleMatches (D : Deps) (node : ParsedNode) (rule : FilterRule) : Bool :=
  match fieldValue node rule.key with
  | some value => matchesPattern D value rule.pattern
  | none => false

/-- Modelled from the spec: `anyMatch(node, rules)`, a disjunction over the rule set. -/
def anyMatch (D : Deps) (node : ParsedNode) (rules : List FilterRule) : Bool :=
  rules.any (ruleMatches D node)

/-! ## Tag allocator (spec section 4.3) -/

/-- Modelled from the spec: the count the ledger records for a tag; a tag without an entry counts
0, as in a Go map. -/
def TagLedger.count (ledger : TagLedger) (tag : String) : Nat :=
  (ledger.lookup tag).getD 0

/-- Modelled from the spec: the ledger with the count of `tag` set to 1. -/
def TagLedger.markUsed (ledger : TagLedger) (tag : String) : TagLedger :=
  (tag, 1) :: ledger

/-- Modelled from the spec: the base tag with the disambiguating suffix `-<n>`. -/
def suffixed (base : String) (n : Nat) : String :=
  base ++ "-" ++ toString n

/-- Modelled from the spec: the retry loop of the absent allocator, the first counter from `n`
on, within `fuel` attempts, whose suffixed tag is unused. -/
def findCounter (ledger : TagLedger) (base : String) : Nat → Nat → Option Nat
  | 0, _ => none
  | fuel + 1, n =>
    if ledger.count (suffixed base n) = 0 then some n
    else findCounter ledger base fuel (n + 1)

/-- Modelled from the spec: `allocate(ledger, candidateBase, sourceOrdinal, sourceCount)` of the
absent tag allocator. An unused base is reserved as it is; on collision the counter starts at 2
and is retried until the suffixed tag is unused. The retry loop gets one attempt more than the
ledger has entries. -/
def allocate (ledger : TagLedger) (candidateBase : String) (_sourceOrdinal _sourceCount : Nat) :
    Option (String × TagLedger) :=
  if ledger.count candidateBase = 0 then
    some (candidateBase, ledger.markUsed candidateBase)
  else
    match findCounter ledger candidateBase (ledger.length + 1) 2 with
    | some n => some (suffixed candidateBase n, ledger.markUsed (suffixed candidateBase n))
    | none => none

/-- Modelled from the spec: the identifier characters a slug keeps, taken to be the ASCII letters,
digits and the underscore. -/
def isIdentChar (c : Char) : Bool :=
  c.isAlphanum || c == '_'

/-- Modelled from the spec: runs of white space collapsed to a single blank; `afterSpace` says
that the previous character was white space. -/
def collapseSpaces : Bool → List Char → List Char
  | _, [] => []
  | afterSpace, c :: cs =>
    if isSpace c then
      if afterSpace then collapseSpaces true cs else ' ' :: collapseSpaces true cs
    else c :: collapseSpaces false cs

/-- Modelled from the spec: the base tag derived from a display name, white space collapsed and
every character that is not an identifier character replaced (by `_`). -/
def slugify (name : String) : String :=
  ⟨(collapseSpaces false name.data).map (fun c => if isIdentChar c then c else '_')⟩

/-! ## Link parser and outbound generator (spec sections 4.1 and 4.4) -/

/-- Modelled from the spec: the scheme prefixes (those `checkURL` of the wizard accepts) and the
protocol each selects. -/
def schemeTable : List (String × Protocol) :=
  [("vless://", .vless), ("vmess://", .vmess), ("trojan://", .trojan), ("ss://", .shadowsocks)]

/-- Modelled from the spec: recognition of a link by its scheme prefix; the protocol and the text
after the prefix. -/
def recognizeScheme (uri : String) : Option (Protocol × List Char) :=
  schemeTable.findSome? (fun entry => (stripPrefix entry.1.data uri.data).map (fun r => (entry.2, r)))

/-- Modelled from the spec: `parsers.IsDirectLink`, whose source is absent; the line starts with
the scheme prefix of a supported protocol. -/
def IsDirectLink (line : String) : Bool :=
  (recognizeScheme line).isSome

/-- Value of a run of decimal digits read after the value `acc`. -/
def decimalValue (acc : Nat) (cs : List Char) : Nat :=
  cs.foldl (fun a c => a * 10 + (c.toNat - 48)) acc

/-- Value of a non-empty run of decimal digits. -/
def parseDecimal (cs : List Char) : Option Nat :=
  if cs = [] then none
  else if cs.all Char.isDigit then some (decimalValue 0 cs)
  else none

/-- Modelled from the spec: the credential a protocol requires, read from the user-info part of
the authority; `none` when it is missing. -/
def credentialOf (p : Protocol) (userinfo : List Char) : Option Identity :=
  if userinfo = [] then none
  else
    match p with
    | .vless => some (.uuid ⟨userinfo⟩)
    | .vmess => some (.uuid ⟨userinfo⟩)
    | .trojan => some (.password ⟨userinfo⟩)
    | .shadowsocks =>
      match cutFirst ':' userinfo with
      | (cipher, some pw) =>
        if cipher = [] ∨ pw = [] then none else some (.cipherPassword ⟨cipher⟩ ⟨pw⟩)
      | (_, none) => none

/-- Modelled from the spec: one `key=value` parameter of the query string, percent-decoded; `none`
when it cannot be parsed. -/
def parseParam (D : Deps) (param : List Char) : Option (String × String) :=
  let kv := cutFirst '=' param
  match D.unescape ⟨kv.1⟩, D.unescape ⟨kv.2.getD []⟩ with
  | some k, some v => some (k, v)
  | _, _ => none

/-- Modelled from the spec: the parameters of a query string, in order; `none` when one of them
cannot be parsed. -/
def parseQuery (D : Deps) (query : List Char) : Option (List (String × String)) :=
  ((splitChars '&' query).filter (fun p => p ≠ [])).mapM (parseParam D)

/-- Modelled from the spec: the display name of a node, the percent-decoded fragment (the raw
fragment when decoding fails) and `server:port` when the link carries no name. -/
def displayNameOf (D : Deps) (fragment : Option (List Char)) (server : String) (port : Nat) :
    String :=
  let decoded : String :=
    match fragment with
    | none => ""
    | some raw => (D.unescape ⟨raw⟩).getD ⟨raw⟩
  if decoded = "" then server ++ ":" ++ toString port else decoded

/-- Modelled from the spec: the provisional node the absent link parser builds from a link.
The scheme prefix selects the protocol; credential, host and port come from the authority, the
options from the query string and the display name from the fragment. A port that is absent, not
a decimal number or zero counts as missing. -/
def buildNode (D : Deps) (uri : String) : Except PipelineError ParsedNode :=
  match recognizeScheme uri with
  | none => .error .UnsupportedScheme
  | some (proto, rest) =>
    let byFragment := cutFirst '#' rest
    let byQuery := cutFirst '?' byFragment.1
    match cutLast '@' byQuery.1 with
    | (none, _) => .error .MalformedLink
    | (some userinfo, hostport) =>
      match credentialOf proto userinfo, cutLast ':' hostport with
      | some identity, (some host, portText) =>
        match parseDecimal portText, parseQuery D (byQuery.2.getD []) with
        | some port, some options =>
          if host = [] ∨ port = 0 then .error .MalformedLink
          else
            .ok { Protocol := proto, Identity := identity, Server := ⟨host⟩, Port := port,
                  TransportOptions := options,
                  DisplayName := displayNameOf D byFragment.2 ⟨host⟩ port,
                  Tag := "", Outbound := none }
        | _, _ => .error .MalformedLink
      | _, _ => .error .MalformedLink

/-- Modelled from the spec: `generateOutbound(node)` of the absent generator. Every descriptor
carries `tag`, `type`, `server` and `server_port`, followed by the protocol-specific keys; an
unsupported combination fails. -/
def generateOutbound (D : Deps) (node : ParsedNode) : Except PipelineError Descriptor :=
  match D.transportKeys node.Protocol node.Identity node.TransportOptions with
  | none => .error .UnsupportedTransport
  | some extra =>
    .ok ([("tag", JVal.str node.Tag), ("type", JVal.str node.Protocol.typeName),
          ("server", JVal.str node.Server), ("server_port", JVal.num node.Port)] ++ extra)

/-- Modelled from the spec: `core.ParseNode(uri, skipFilters)`, whose source is absent. The skip
rules are applied to the provisional node, before the tag candidate is set and the descriptor is
generated; `ok none` is the Go result `(nil, nil)`. -/
def ParseNode (D : Deps) (uri : String) (skipFilters : List FilterRule) :
    Except PipelineError (Option ParsedNode) :=
  match buildNode D uri with
  | .error e => .error e
  | .ok provisional =>
    if anyMatch D provisional skipFilters then .ok none
    else
      let node := { provisional with Tag := slugify provisional.DisplayName }
      match generateOutbound D node with
      | .error e => .error e
      | .ok descriptor => .ok (some { node with Outbound := some descriptor })

/-- A valid link of a supported scheme: the parser builds a provisional node from it and the
generator supports its protocol and transport combination. -/
def validLink (D : Deps) (uri : String) : Bool :=
  match buildNode D uri with
  | .error _ => false
  | .ok provisional =>
    (D.transportKeys provisional.Protocol provisional.Identity
      provisional.TransportOptions).isSome

/-- Display name the parser gives a link, when it builds a node from it. -/
def displayNameOfLink (D : Deps) (uri : String) : Option String :=
  match buildNode D uri with
  | .error _ => none
  | .ok provisional => some provisional.DisplayName

/-- The check the integration test makes on a descriptor: `tag`, `type` and `server` are
non-empty strings and `server_port` is a positive number. -/
def hasRequiredKeys (d : Descriptor) : Bool :=
  (match d.get "tag" with
    | some (.str t) => t ≠ ""
    | _ => false) &&
  (match d.get "type" with
    | some (.str t) => t ≠ ""
    | _ => false) &&
  (match d.get "server" with
    | some (.str t) => t ≠ ""
    | _ => false) &&
  (match d.get "server_port" with
    | some (.num p) => 0 < p
    | _ => false)

/-- The wizard wrapper `parseNodeFromString` around `core.ParseNode`, as a Go result pair. -/
def parseNodeFromString (D : Deps) : LinkParser :=
  fun uri skipFilters =>
    match ParseNode D uri skipFilters with
    | .ok node => (node, none)
    | .error e => (none, some e)

/-! ## Subscription decoding (spec section 6) -/

/-- The standard base64 alphabet, as byte values. -/
def stdAlphabet : List Nat :=
  "ABCDEFGHIJKLMNOPQRSTUVWXYZabcdefghijklmnopqrstuvwxyz0123456789+/".data.map Char.toNat

/-- The URL-safe base64 alphabet, as byte values. -/
def urlAlphabet : List Nat :=
  "ABCDEFGHIJKLMNOPQRSTUVWXYZabcdefghijklmnopqrstuvwxyz0123456789-_".data.map Char.toNat

/-- The padding byte `=`. -/
def padByte : Nat := 61

/-- Symbol of a six-bit value in an alphabet. -/
def symbolOf (alphabet : List Nat) (v : Nat) : Nat :=
  alphabet.getD v padByte

/-- Six-bit value of a symbol of an alphabet. -/
def valueOf (alphabet : List Nat) (c : Nat) : Option Nat :=
  if alphabet.indexOf c < alphabet.length then some (alphabet.indexOf c) else none

/-- Go `Encoding.EncodeToString` with padding: three bytes become four symbols. -/
def encodeBase64 (alphabet : List Nat) : List Nat → List Nat
  | [] => []
  | [a] => [symbolOf alphabet (a / 4), symbolOf alphabet (a % 4 * 16), padByte, padByte]
  | [a, b] =>
    [symbolOf alphabet (a / 4), symbolOf alphabet (a % 4 * 16 + b / 16),
     symbolOf alphabet (b % 16 * 4), padByte]
  | a :: b :: c :: rest =>
    symbolOf alphabet (a / 4) :: symbolOf alphabet (a % 4 * 16 + b / 16) ::
      symbolOf alphabet (b % 16 * 4 + c / 64) :: symbolOf alphabet (c % 64) ::
      encodeBase64 alphabet rest

/-- Decoding of newline-free padded base64: four symbols become three bytes, padding is allowed in
the last group only, and any other byte makes the input invalid. -/
def decodeBase64 (alphabet : List Nat) : List Nat → Option (List Nat)
  | [] => some []
  | c0 :: c1 :: c2 :: c3 :: rest =>
    match valueOf alphabet c0, valueOf alphabet c1 with
    | some v0, some v1 =>
      if c2 = padByte then
        if c3 = padByte ∧ rest = [] then some [v0 * 4 + v1 / 16] else none
      else
        match valueOf alphabet c2 with
        | none => none
        | some v2 =>
          if c3 = padByte then
            if rest = [] then some [v0 * 4 + v1 / 16, v1 % 16 * 16 + v2 / 4] else none
          else
            match valueOf alphabet c3 with
            | none => none
            | some v3 =>
              (decodeBase64 alphabet rest).map
                (fun tail => (v0 * 4 + v1 / 16) :: (v1 % 16 * 16 + v2 / 4) :: (v2 % 4 * 64 + v3) :: tail)
    | _, _ => none
  | _ => none

/-- Go `base64.URLEncoding.EncodeToString`, the encoding the integration test applies. -/
def URLEncodeToString (content : List Nat) : List Nat :=
  encodeBase64 urlAlphabet content

/-- The content without the bytes `\n` and `\r`, which the Go decoder ignores. -/
def stripNewlines (content : List Nat) : List Nat :=
  content.filter (fun b => b != 10 && b != 13)

/-- Go `Encoding.DecodeString` for a padded encoding. -/
def DecodeString (alphabet : List Nat) (content : List Nat) : Option (List Nat) :=
  decodeBase64 alphabet (stripNewlines content)

/-- Content that decodes as base64 in the standard or in the URL-safe alphabet. -/
def isValidBase64 (content : List Nat) : Bool :=
  (DecodeString stdAlphabet content).isSome || (DecodeString urlAlphabet content).isSome

/-- Modelled from the spec: `core.DecodeSubscriptionContent`, whose source is absent. Content in
the standard or the URL-safe base64 alphabet is decoded; when base64 decoding fails the content
is taken as plain text already. -/
def DecodeSubscriptionContent (content : List Nat) : Except PipelineError (List Nat) :=
  match DecodeString stdAlphabet content with
  | some decoded => .ok decoded
  | none =>
    match DecodeString urlAlphabet content with
    | some decoded => .ok decoded
    | none => .ok content

/-- Lines of a byte content: the pieces between newline bytes. -/
def splitBytes (sep : Nat) : List Nat → List (List Nat)
  | [] => [[]]
  | b :: bs =>
    if b = sep then [] :: splitBytes sep bs
    else
      match splitBytes sep bs with
      | [] => [[b]]
      | piece :: rest => (b :: piece) :: rest

/-- The loop of the integration test over the lines of a decoded subscription: the nodes of the
non-blank lines that are direct links and parse without error. -/
def subscriptionNodes (D : Deps) (content : List Nat) : List ParsedNode :=
  match DecodeSubscriptionContent content with
  | .error _ => []
  | .ok decoded =>
    (SplitLines (D.textOf decoded)).filterMap (fun line =>
      if TrimSpace line = "" then none
      else if IsDirectLink (TrimSpace line) then
        match ParseNode D (TrimSpace line) [] with
        | .ok (some node) => some node
        | _ => none
      else none)

/-! ## Source processor (spec section 4.5) -/

/-- Nodes accumulated for a source, and the shared ledger. -/
structure ProcessState where
  nodes : List ParsedNode
  ledger : TagLedger

/-- Modelled from the spec: what the absent source processor does with one raw link. Blank links
are skipped; a parse failure and a skip leave the state as it is; a parsed node gets its tag from
the allocator and a fresh descriptor, and is appended. -/
def processLink (D : Deps) (skipFilters : List FilterRule) (ordinal total : Nat)
    (st : ProcessState) (raw : String) : ProcessState :=
  let link := TrimSpace raw
  if link = "" then st
  else
    match ParseNode D link skipFilters with
    | .error _ => st
    | .ok none => st
    | .ok (some node) =>
      match allocate st.ledger node.Tag ordinal total with
      | none => st
      | some (tag, ledger) =>
        let fresh := { node with Tag := tag, Outbound := none }
        match generateOutbound D fresh with
        | .error _ => st
        | .ok descriptor =>
          { nodes := st.nodes ++ [{ fresh with Outbound := some descriptor }], ledger := ledger }

/-- Modelled from the spec: the links of a source, the lines of the decoded content behind
`Source` when there is one, then the inline `Connections`. -/
def sourceLinks (D : Deps) (source : ProxySource) : Except PipelineError (List String) :=
  if source.Source = "" then .ok source.Connections
  else
    match D.fetch source.Source with
    | none => .error .SourceUnreadable
    | some content =>
      match DecodeSubscriptionContent content with
      | .error e => .error e
      | .ok decoded => .ok (SplitLines (D.textOf decoded) ++ source.Connections)

/-- Modelled from the spec: `ConfigService.ProcessProxySource`, whose source is absent. Every link
is parsed with the union of the skip rules of the source and the batch-wide ones; the call fails
only when the source cannot be read. The result is the node list in link order and the ledger as
the call leaves it. -/
def ProcessProxySource (D : Deps) (source : ProxySource) (tagCounts : TagLedger)
    (defaultSkip : List FilterRule) (ordinal total : Nat) :
    Except PipelineError (List ParsedNode × TagLedger) :=
  match sourceLinks D source with
  | .error e => .error e
  | .ok links =>
    let st := links.foldl (processLink D (source.Skip ++ defaultSkip) ordinal total)
      { nodes := [], ledger := tagCounts }
    .ok (st.nodes, st.ledger)

/-- One call of `ProcessProxySource` in a batch. -/
structure SourceCall where
  source : ProxySource
  defaultSkip : List FilterRule
  ordinal : Nat
  total : Nat

/-- A sequence of `ProcessProxySource` calls on one ledger: all nodes the calls return, and the
ledger after the last call. A call that fails returns no nodes and leaves the ledger alone. -/
def runCalls (D : Deps) : List SourceCall → TagLedger → List ParsedNode × TagLedger
  | [], ledger => ([], ledger)
  | call :: calls, ledger =>
    match ProcessProxySource D call.source ledger call.defaultSkip call.ordinal call.total with
    | .error _ => runCalls D calls ledger
    | .ok (nodes, ledger1) =>
      let r := runCalls D calls ledger1
      (nodes ++ r.1, r.2)

/-! ## Config normalizer (spec section 4.6) -/

/-- Modelled from the spec: the version of a document, the nested one, or the legacy top-level
one when the nested one is absent. -/
def schemaVersion (cfg : ParserConfig) : Int :=
  if cfg.ParserConfig.Version = 0 then cfg.Version else cfg.ParserConfig.Version

/-- Modelled from the spec: the upgrade of section 4.6, whose source is absent. A document whose
version is below the current schema version has its legacy top-level version hoisted into the
nested block and its version bumped to the current one; any other document is left as it is. -/
def upgradeToCurrent (current : Int) (cfg : ParserConfig) : ParserConfig :=
  if schemaVersion cfg < current then
    { Version := 0, ParserConfig := { cfg.ParserConfig with Version := current } }
  else cfg

/-- Modelled from the spec: defaults for omitted fields, the reload interval `4h` and the outbound
type `selector`. -/
def fillDefaults (cfg : ParserConfig) : ParserConfig :=
  { cfg with
    ParserConfig :=
      { cfg.ParserConfig with
        Outbounds := cfg.ParserConfig.Outbounds.map (fun o =>
          if o.OutboundType = "" then { o with OutboundType := "selector" } else o)
        Parser :=
          { cfg.ParserConfig.Parser with
            Reload :=
              if cfg.ParserConfig.Parser.Reload = "" then "4h"
              else cfg.ParserConfig.Parser.Reload } } }

/-- Modelled from the spec: `core.NormalizeParserConfig(cfg, strict)`, whose source is absent, as
a function from the document to the normalized one. `current` is the constant
`ParserConfigVersion` and `unmigratable` says which documents have a field that cannot be
migrated unambiguously; the declarations of both are absent. A document below the current version
is migrated and bumped, defaults are filled, and only the strict call fails (section 4.6). -/
def NormalizeParserConfig (current : Int) (unmigratable : ParserConfig → Bool)
    (cfg : ParserConfig) (strict : Bool) : Except PipelineError ParserConfig :=
  if strict && unmigratable cfg then .error .SchemaViolation
  else .ok (fillDefaults (upgradeToCurrent current cfg))

/-- The nested version of the normalized document, if the call succeeds. -/
def normalizedVersion (current : Int) (unmigratable : ParserConfig → Bool)
    (cfg : ParserConfig) (strict : Bool) : Option Int :=
  match NormalizeParserConfig current unmigratable cfg strict with
  | .ok out => some out.ParserConfig.Version
  | .error _ => none

/-- The document of `defaultParserConfigTemplate` (`ui/config_wizard.go`): the legacy top-level
version 1, no nested version, one source, one selector, no parser settings. -/
def defaultParserConfig : ParserConfig :=
  { Version := 1,
    ParserConfig :=
      { Version := 0,
        Proxies := [{ Source := "https://USE_YOUR_SUBSCRIPTION_URL_HERE", Connections := [],
                      Skip := [] }],
        Outbounds := [{ Tag := "proxy-out", OutboundType := "selector",
                        Options := [("interrupt_exist_connections", .bool true)],
                        Proxies := [{ key := "tag", pattern := "!/(DO_NOT_USE_THIS)/i" }],
                        AddOutbounds := ["direct-out"],
                        Comment := "Proxy group for all connections" }],
        Parser := { Reload := "", LastUpdated := "" } } }

/-- The document of the integration test: nested version 2, one inline source, one selector. -/
def testParserConfig (links : List String) : ParserConfig :=
  { Version := 0,
    ParserConfig :=
      { Version := 2,
        Proxies := [{ Source := "", Connections := links, Skip := [] }],
        Outbounds := [{ Tag := "proxy-out", OutboundType := "selector", Options := [],
                        Proxies := [],
                        AddOutbounds := [], Comment := "" }],
        Parser := { Reload := "", LastUpdated := "" } } }

/-- A concrete choice of the dependencies for evaluating the pipeline on examples: expressions
without metacharacters searched as substrings, escapes left as they are, no protocol-specific
keys, no reachable URL. -/
def sampleDeps : Deps where
  reMatch := fun ci body value =>
    if ci then Contains (foldCase value) (foldCase body) else Contains value body
  unescape := fun s => some s
  transportKeys := fun _ _ _ => some []
  fetch := fun _ => none
  textOf := fun bytes => ⟨bytes.map Char.ofNat⟩

/-- The links of the integration test (`realWorldLinks` of `TestIntegration_RealWorldSubscription`). -/
def realWorldLinks : List String :=
  ["vless://4a3ece53-6000-4ba3-a9fa-fd0d7ba61cf3@31.57.228.19:443?encryption=none&flow=xtls-rprx-vision&security=reality&sni=hls-svod.itunes.apple.com&fp=chrome&pbk=mLmBhbVFfNuo2eUgBh6r9-5Koz9mUCn3aSzlR6IejUg&sid=48720c&allowInsecure=1&type=tcp&headerType=none#🇦🇪 United Arab Emirates [black lists]",
   "vless://53fff6cc-b4ec-43e8-ade5-e0c42972fc33@152.53.227.159:80?encryption=none&security=none&type=ws&host=cdn.ir&path=%2Fnews#🇦🇹 Austria [black lists]",
   "vless://eb6a085c-437a-4539-bb43-19168d50bb10@46.250.240.80:443?encryption=none&security=reality&sni=www.microsoft.com&fp=safari&pbk=lDOVN5z1ZfaBqfUWJ9yNnonzAjW3ypLr_rJLMgm5BQQ&sid=b65b6d0bcb4cd8b8&allowInsecure=1&type=grpc&authority=&serviceName=647e311eb70230db731bd4b1&mode=gun#🇦🇺 Australia [black lists]",
   "vless://2ee2a715-d541-416a-8713-d66567448c2e@91.98.155.240:443?encryption=none&security=none&type=grpc#🇩🇪 Germany [black lists]",
   "vless://22eb7060-d314-49d6-9d24-5a3ee72488cd@185.121.134.113:443?encryption=none&flow=xtls-rprx-vision&security=reality&sni=torretobarbershop.de&fp=random&pbk=ebCoS9P5o6dm9v8Dxbe-lEuEzS-R9rPH0IaimuAIKDg&sid=25f8f93d&allowInsecure=1&type=tcp&headerType=none#🇩🇪 Germany [black lists]",
   "vless://0f8e2cfc-fdf2-46c7-bfcd-ce8273d5ff13@94.156.114.200:38395?encryption=none&flow=xtls-rprx-vision&security=reality&sni=vk.com&fp=chrome&pbk=DvKMFkm82Jkp6Jk_7pXYb0fMXq1MsLMNxDeQfcCSbEA&sid=ab12cd34&allowInsecure=1&type=tcp&headerType=none#🇩🇪 Germany [black lists]",
   "vless://a91e64f0-9295-499d-bf4a-661ad99d4938@193.233.254.154:8443?encryption=none&flow=xtls-rprx-vision&security=reality&sni=eh.vk.com&fp=chrome&pbk=8OsJx6xuHcpL_5e1w0U4bMBa-icevDgvvzNwPwZbORQ&sid=5540e44a53c3d01c&allowInsecure=1&type=tcp&headerType=none#🇩🇪 Germany [black lists]",
   "vless://6c5984fb-3549-4067-93d0-e1fd568f8a8a@109.122.197.74:443?encryption=none&security=reality&sni=de.fasssst.online&fp=chrome&pbk=qkceRBCQxyjNn_t556P-Ia4HWlLK0l4Mxn08MpFGYDw&sid=7e59d497&allowInsecure=1&type=grpc#🇩🇪 Germany [black lists]"]

/-! ## Version comparison (`ui/core_dashboard_tab.go`, lines 298-327) -/

/-- Go `strings.Split(s, ".")`. -/
def SplitDots (s : String) : List String :=
  (splitChars '.' s.data).map String.mk

/-- Leading white space skipped as `SkipSpace` of Go `fmt` does under `Sscanf`; a newline ends the
scan with an error. -/
def skipSpaceScanf : List Char → Option (List Char)
  | [] => some []
  | c :: cs =>
    if c = '\n' then none
    else if isSpace c then skipSpaceScanf cs
    else some (c :: cs)

/-- Go `strconv.ParseInt(tok, 10, 64)` on a sign and a run of decimal digits: the value, and
`none` for a value outside the 64-bit range. -/
def parseInt64 (negative : Bool) (digits : List Char) : Option Int :=
  if negative then
    if decimalValue 0 digits ≤ 9223372036854775808 then some (-(decimalValue 0 digits : Int))
    else none
  else
    if decimalValue 0 digits ≤ 9223372036854775807 then some (decimalValue 0 digits : Int)
    else none

/-- What Go `fmt.Sscanf(s, "%d", &num)` scans on a platform with 64-bit `int`: white space is
skipped, an optional sign and a non-empty run of decimal digits are read, and the token is
parsed; `none` when the scan fails, in which case `num` is not assigned. -/
def scanDecimal (s : String) : Option Int :=
  match skipSpaceScanf s.data with
  | none => none
  | some [] => none
  | some (c :: cs) =>
    let negative := c == '-'
    let rest := if c = '+' ∨ c = '-' then cs else c :: cs
    let digits := rest.takeWhile Char.isDigit
    if digits = [] then none else parseInt64 negative digits

/-- Value of `num` after `var num int` and `fmt.Sscanf(part, "%d", &num)`, whose error the code
ignores: the scanned value, and 0 when the scan fails. -/
def sscanfInt (part : String) : Int :=
  (scanDecimal part).getD 0

/-- The loop `for i := 0; i < maxLen; i++` of `compareVersions`, with `remaining` iterations to go
from index `i`. -/
def compareVersionsLoop (parts1 parts2 : List String) : Nat → Nat → Int
  | 0, _ => 0
  | remaining + 1, i =>
    let num1 : Int := if i < parts1.length then sscanfInt (parts1.getD i "") else 0
    let num2 : Int := if i < parts2.length then sscanfInt (parts2.getD i "") else 0
    if num1 < num2 then -1
    else if num1 > num2 then 1
    else compareVersionsLoop parts1 parts2 remaining (i + 1)

/-- Go `compareVersions(v1, v2)`. -/
def compareVersions (v1 v2 : String) : Int :=
  let parts1 := SplitDots v1
  let parts2 := SplitDots v2
  let maxLen := if parts2.length > parts1.length then parts2.length else parts1.length
  compareVersionsLoop parts1 parts2 maxLen 0

/-- A decimal integer as a version component reads: an optional sign and a non-empty run of
decimal digits; its value. -/
def decimalInteger (part : String) : Option Int :=
  match part.data with
  | '-' :: ds => if ds ≠ [] ∧ ds.all Char.isDigit then some (-(decimalValue 0 ds : Int)) else none
  | '+' :: ds => if ds ≠ [] ∧ ds.all Char.isDigit then some (decimalValue 0 ds : Int) else none
  | ds => if ds ≠ [] ∧ ds.all Char.isDigit then some (decimalValue 0 ds : Int) else none

/-- Values of a list of components, when every component is a decimal integer. -/
def decimalIntegers : List String → Option (List Int)
  | [] => some []
  | part :: parts =>
    match decimalInteger part, decimalIntegers parts with
    | some z, some zs => some (z :: zs)
    | _, _ => none

/-- Integer component sequence of a version string, when every dot-separated component is a
decimal integer. -/
def versionComponents (v : String) : Option (List Int) :=
  decimalIntegers (SplitDots v)

/-- Order of the empty sequence, read as zeros, against a sequence. -/
def compareZerosWith : List Int → Int
  | [] => 0
  | b :: bs => if 0 < b then -1 else if 0 > b then 1 else compareZerosWith bs

/-- Order of two integer sequences, a missing trailing component counting as 0: -1, 0 or 1 as the
first is below, equal to or above the second in lexicographic order. -/
def comparePadded : List Int → List Int → Int
  | [], ys => compareZerosWith ys
  | a :: as, [] => if a < 0 then -1 else if a > 0 then 1 else comparePadded as []
  | a :: as, b :: bs => if a < b then -1 else if a > b then 1 else comparePadded as bs

/-- A sequence with zeros appended up to length `n`. -/
def padZeros (n : Nat) (xs : List Int) : List Int :=
  xs ++ List.replicate (n - xs.length) 0

/-- Values that fit the 64-bit `int` of Go. -/
def fitsInt64 (z : Int) : Bool :=
  decide (-9223372036854775808 ≤ z) && decide (z ≤ 9223372036854775807)


/-! ## Debug log level (`internal/debuglog/debuglog.go`) -/

/-- Go `type Level uint8`. -/
abbrev Level := Nat

/-- Go constant `LevelOff`, the first of the `iota` block. -/
def LevelOff : Level := 0

/-- Go constant `LevelError`. -/
def LevelError : Level := 1

/-- Go constant `LevelWarn`. -/
def LevelWarn : Level := 2

/-- Go constant `LevelInfo`. -/
def LevelInfo : Level := 3

/-- Go constant `LevelVerbose`. -/
def LevelVerbose : Level := 4

/-- Go constant `LevelTrace`. -/
def LevelTrace : Level := 5

/-- Go constant `UseGlobal`. -/
def UseGlobal : Level := 255

/-- The `switch` of `parseEnvLevel` on the trimmed and lower-cased text. -/
def levelOfName (name : String) : Level :=
  if name = "trace" then LevelTrace
  else if name = "verbose" ∨ name = "debug" then LevelVerbose
  else if name = "info" then LevelInfo
  else if name = "warn" then LevelWarn
  else if name = "error" then LevelError
  else if name = "off" then LevelOff
  else LevelVerbose

/-- Go `parseEnvLevel(raw)`; `ToLower` is Go `strings.ToLower`, whose Unicode case tables are part
of the standard library. -/
def parseEnvLevel (ToLower : String → String) (raw : String) : Level :=
  levelOfName (ToLower (TrimSpace raw))


/-! ## wintun.dll check and download (`core/wintun_downloader.go`) -/

/-- A Go `error` value: one made by `fmt.Errorf` with the given text, or one returned by a
library or system call. -/
inductive GoError where
  | errorf (msg : String)
  | library (pkg msg : String)
  deriving DecidableEq, Repr

/-- Go `err.Error()`, as `%v` prints it. -/
def GoError.text : GoError → String
  | .errorf msg => msg
  | .library _ msg => msg

/-- Outcome of Go `os.Stat`: no error, an error for which `os.IsNotExist` holds, or another
error. -/
inductive StatOutcome where
  | found
  | notExist
  | otherError (err : GoError)
  deriving DecidableEq, Repr

/-- Result of `CheckWintunDLL`: the pair `(bool, error)` it returns and the paths it asked the
filesystem about. -/
structure CheckOutcome where
  dllExists : Bool
  err : Option GoError
  statCalls : List String
  deriving DecidableEq, Repr

/-- Go `AppController.CheckWintunDLL`; `GOOS` is `runtime.GOOS` and `stat` the filesystem as
`os.Stat` sees it. -/
def CheckWintunDLL (GOOS WintunPath : String) (stat : String → StatOutcome) : CheckOutcome :=
  if GOOS ≠ "windows" then { dllExists := true, err := none, statCalls := [] }
  else
    match stat WintunPath with
    | .notExist => { dllExists := false, err := none, statCalls := [WintunPath] }
    | _ => { dllExists := true, err := none, statCalls := [WintunPath] }

/-- Fyne `widget.Importance`. -/
inductive Importance where
  | MediumImportance
  | LowImportance
  | HighImportance
  | DangerImportance
  | WarningImportance
  | SuccessImportance
  deriving DecidableEq, Repr

/-- A Fyne label: its text and importance. -/
structure Label where
  Text : String
  Importance : Importance
  deriving DecidableEq, Repr

/-- A Fyne button: its text, whether it is enabled and shown, and its importance. -/
structure Button where
  Text : String
  Enabled : Bool
  Visible : Bool
  Importance : Importance
  deriving DecidableEq, Repr

/-- The wintun widgets of the dashboard tab that `updateWintunStatus` touches. -/
structure WintunWidgets where
  wintunStatusLabel : Label
  wintunDownloadButton : Button
  wintunDownloadProgressVisible : Bool
  deriving DecidableEq, Repr

/-- The branch `err != nil` of `updateWintunStatus`. -/
def wintunCheckFailed (w : WintunWidgets) : WintunWidgets :=
  { w with
    wintunStatusLabel := { Text := "❌ Error checking wintun.dll", Importance := .MediumImportance }
    wintunDownloadButton := { w.wintunDownloadButton with Enabled := false } }

/-- The branch `exists` of `updateWintunStatus`. -/
def wintunPresent (w : WintunWidgets) : WintunWidgets :=
  { wintunStatusLabel := { Text := "ok", Importance := .MediumImportance }
    wintunDownloadButton := { w.wintunDownloadButton with Visible := false }
    wintunDownloadProgressVisible := false }

/-- The branch `!exists` of `updateWintunStatus`. -/
def wintunMissing (w : WintunWidgets) : WintunWidgets :=
  { w with
    wintunStatusLabel := { Text := "❌ wintun.dll not found", Importance := .MediumImportance }
    wintunDownloadButton :=
      { Text := "Download wintun.dll", Enabled := true, Visible := true,
        Importance := .HighImportance } }

/-- Go `CoreDashboardTab.updateWintunStatus`, as a function on the widgets. -/
def updateWintunStatus (GOOS WintunPath : String) (stat : String → StatOutcome)
    (w : WintunWidgets) : WintunWidgets :=
  if GOOS ≠ "windows" then w
  else
    match (CheckWintunDLL GOOS WintunPath stat).err with
    | some _ => wintunCheckFailed w
    | none =>
      if (CheckWintunDLL GOOS WintunPath stat).dllExists then wintunPresent w
      else wintunMissing w

/-- Go `core.DownloadProgress`. -/
structure DownloadProgress where
  Progress : Int
  Message : String
  Status : String
  Error : Option GoError
  deriving DecidableEq, Repr

/-- What `DownloadWintunDLL` does to the outside: messages on the progress channel, the closing of
the channel, and filesystem, network and archive operations. -/
inductive Effect where
  | send (p : DownloadProgress)
  | closeChannel
  | mkdirAll (path : String)
  | removeAll (path : String)
  | download (url path : String)
  | openZip (path : String)
  | closeZip (path : String)
  | openEntry (name : String)
  | closeEntry (name : String)
  | createFile (path : String)
  | openFile (path : String)
  | copyInto (path : String)
  | closeFile (path : String)
  deriving DecidableEq, Repr

/-- One file of the downloaded archive, with the outcome of opening it, of creating the
extraction target and of copying into it. -/
structure ZipEntry where
  Name : String
  openError : Option GoError
  createError : Option GoError
  copyError : Option GoError
  deriving DecidableEq, Repr

/-- The platform, the controller fields and the outcomes of the system and library calls that
`DownloadWintunDLL` makes. `downloadFileFromURL` is the method of `AppController` that fetches a
file; it reports the messages it sends and its error. -/
structure WintunEnv where
  GOOS : String
  GOARCH : String
  ExecDir : String
  WintunPath : String
  Join : String → String → String
  Dir : String → String
  mkdirAll : String → Option GoError
  downloadFileFromURL : String → String → List DownloadProgress × Option GoError
  zipOpenReader : String → Except GoError (List ZipEntry)
  osOpen : String → Option GoError
  osCreate : String → Option GoError
  ioCopy : String → Option GoError

/-- Go constant `WinTunVersion`. -/
def WinTunVersion : String := "0.14.1"

/-- Go `fmt.Sprintf(WinTunDownloadURL, WinTunVersion)`. -/
def winTunZipURL : String :=
  "https://www.wintun.net/builds/wintun-" ++ WinTunVersion ++ ".zip"

/-- Go `strings.HasSuffix`. -/
def HasSuffix (s suffix : String) : Bool :=
  suffix.data.isSuffixOf s.data

/-- An error message sent on the progress channel: progress 0 and status `error`. -/
def errorProgress (message : String) (err : GoError) : DownloadProgress :=
  { Progress := 0, Message := message, Status := "error", Error := some err }

/-- The loop over the files of the archive: the effects, and the value of `dllPath` after it.
The first matching file that opens, is created and is copied ends the loop; `dllPath` is set as
soon as a matching file opens. -/
def extractLoop (tempDllPath archDir : String) : List ZipEntry → String → List Effect × String
  | [], dllPath => ([], dllPath)
  | f :: files, dllPath =>
    if HasSuffix f.Name ("bin/" ++ archDir ++ "/wintun.dll") ||
        Contains f.Name ("/" ++ archDir ++ "/wintun.dll") then
      match f.openError with
      | some _ =>
        let r := extractLoop tempDllPath archDir files dllPath
        (Effect.openEntry f.Name :: r.1, r.2)
      | none =>
        match f.createError with
        | some _ =>
          let r := extractLoop tempDllPath archDir files tempDllPath
          ([Effect.openEntry f.Name, .createFile tempDllPath, .closeEntry f.Name] ++ r.1, r.2)
        | none =>
          match f.copyError with
          | some _ =>
            let r := extractLoop tempDllPath archDir files tempDllPath
            ([Effect.openEntry f.Name, .createFile tempDllPath, .copyInto tempDllPath,
              .closeFile tempDllPath, .closeEntry f.Name] ++ r.1, r.2)
          | none =>
            ([Effect.openEntry f.Name, .createFile tempDllPath, .copyInto tempDllPath,
              .closeFile tempDllPath, .closeEntry f.Name], tempDllPath)
    else extractLoop tempDllPath archDir files dllPath

/-- Step 4 and 5 of `DownloadWintunDLL`: the extracted file is copied to `WintunPath`. The
argument `deferred` holds the deferred calls, the latest first. -/
def installDll (env : WintunEnv) (dllPath : String) (deferred : List Effect) : List Effect :=
  let announce := Effect.send
    { Progress := 90, Message := "Installing wintun.dll...", Status := "extracting", Error := none }
  let binDir := env.Dir env.WintunPath
  match env.mkdirAll binDir with
  | some err =>
    [announce, .mkdirAll binDir,
      .send (errorProgress ("Failed to create bin directory: " ++ err.text) err)] ++ deferred
  | none =>
    match env.osOpen dllPath with
    | some err =>
      [announce, .mkdirAll binDir, .openFile dllPath,
        .send (errorProgress ("Failed to open source file: " ++ err.text) err)] ++ deferred
    | none =>
      match env.osCreate env.WintunPath with
      | some err =>
        [announce, .mkdirAll binDir, .openFile dllPath, .createFile env.WintunPath,
          .send (errorProgress ("Failed to create destination file: " ++ err.text) err),
          .closeFile dllPath] ++ deferred
      | none =>
        match env.ioCopy env.WintunPath with
        | some err =>
          [announce, .mkdirAll binDir, .openFile dllPath, .createFile env.WintunPath,
            .copyInto env.WintunPath,
            .send (errorProgress ("Failed to copy file: " ++ err.text) err),
            .closeFile env.WintunPath, .closeFile dllPath] ++ deferred
        | none =>
          [announce, .mkdirAll binDir, .openFile dllPath, .createFile env.WintunPath,
            .copyInto env.WintunPath,
            .send { Progress := 100,
                    Message := "wintun.dll v" ++ WinTunVersion ++ " installed successfully!",
                    Status := "done", Error := none },
            .closeFile env.WintunPath, .closeFile dllPath] ++ deferred

/-- Step 3 of `DownloadWintunDLL`: the archive is opened and wintun.dll of the architecture is
extracted. -/
def extractDll (env : WintunEnv) (tempDir zipPath : String) (deferred : List Effect) :
    List Effect :=
  let announce := Effect.send
    { Progress := 80, Message := "Extracting wintun.dll...", Status := "extracting", Error := none }
  if env.GOARCH = "amd64" ∨ env.GOARCH = "arm64" then
    match env.zipOpenReader zipPath with
    | .error err =>
      [announce, .openZip zipPath,
        .send (errorProgress ("Failed to open zip: " ++ err.text) err)] ++ deferred
    | .ok files =>
      let loop := extractLoop (env.Join tempDir "wintun.dll") env.GOARCH files ""
      if loop.2 = "" then
        [announce, .openZip zipPath] ++ loop.1 ++
          [.send (errorProgress "wintun.dll not found in archive"
            (.errorf "wintun.dll not found in archive"))] ++ (.closeZip zipPath :: deferred)
      else
        [announce, .openZip zipPath] ++ loop.1 ++
          installDll env loop.2 (.closeZip zipPath :: deferred)
  else
    [announce,
      .send (errorProgress ("Unsupported architecture: " ++ env.GOARCH)
        (.errorf ("unsupported architecture: " ++ env.GOARCH)))] ++ deferred

/-- Go `AppController.DownloadWintunDLL`, as the sequence of its effects. The channel is closed
by the first deferred call, so closing comes last on every path. -/
def DownloadWintunDLL (env : WintunEnv) : List Effect :=
  if env.GOOS ≠ "windows" then
    [.send (errorProgress "wintun.dll is only needed on Windows"
      (.errorf "wintun.dll is only needed on Windows")), .closeChannel]
  else
    let tempDir := env.Join env.ExecDir "temp"
    match env.mkdirAll tempDir with
    | some err =>
      [.mkdirAll tempDir, .send (errorProgress ("Failed to create temp dir: " ++ err.text) err),
        .closeChannel]
    | none =>
      let zipPath := env.Join tempDir ("wintun-" ++ WinTunVersion ++ ".zip")
      let fetched := env.downloadFileFromURL winTunZipURL zipPath
      let start : List Effect :=
        [.mkdirAll tempDir,
          .send { Progress := 10, Message := "Downloading wintun.dll...",
                  Status := "downloading", Error := none },
          .download winTunZipURL zipPath] ++ fetched.1.map Effect.send
      match fetched.2 with
      | some err =>
        start ++ [.send (errorProgress ("Download failed: " ++ err.text) err),
          .removeAll tempDir, .closeChannel]
      | none => start ++ extractDll env tempDir zipPath [.removeAll tempDir, .closeChannel]

/-- A Linux machine on which every system call would succeed. -/
def linuxEnv : WintunEnv :=
  { GOOS := "linux", GOARCH := "amd64", ExecDir := "/opt/launcher",
    WintunPath := "/opt/launcher/bin/wintun.dll",
    Join := fun a b => a ++ "/" ++ b, Dir := fun _ => "/opt/launcher/bin",
    mkdirAll := fun _ => none, downloadFileFromURL := fun _ _ => ([], none),
    zipOpenReader := fun _ => .ok [], osOpen := fun _ => none, osCreate := fun _ => none,
    ioCopy := fun _ => none }

/-- A Windows machine whose archive holds the amd64 and arm64 libraries and on which every
system call succeeds. -/
def windowsEnv : WintunEnv :=
  { GOOS := "windows", GOARCH := "amd64", ExecDir := "C:/launcher",
    WintunPath := "C:/launcher/bin/wintun.dll",
    Join := fun a b => a ++ "/" ++ b, Dir := fun _ => "C:/launcher/bin",
    mkdirAll := fun _ => none, downloadFileFromURL := fun _ _ => ([], none),
    zipOpenReader := fun _ =>
      .ok [{ Name := "wintun/bin/arm64/wintun.dll", openError := none, createError := none,
             copyError := none },
           { Name := "wintun/bin/amd64/wintun.dll", openError := none, createError := none,
             copyError := none }],
    osOpen := fun _ => none, osCreate := fun _ => none, ioCopy := fun _ => none }

/-- The wintun widgets as `createWintunBlock` creates them: the label `Checking...`, the button
`Download` of medium importance, disabled and shown, the progress bar hidden. -/
def sampleWintunWidgets : WintunWidgets :=
  { wintunStatusLabel := { Text := "Checking...", Importance := .MediumImportance }
    wintunDownloadButton :=
      { Text := "Download", Enabled := false, Visible := true,
        Importance := .MediumImportance }
    wintunDownloadProgressVisible := false }


/-! ## Version row of the dashboard tab (`ui/core_dashboard_tab.go`) -/

/-- The widgets of the dashboard tab that `updateVersionInfoAsync` touches. -/
structure VersionWidgets where
  singboxStatusLabel : Label
  downloadButton : Button
  deriving DecidableEq, Repr

/-- Go `CoreDashboardTab.updateVersionInfoAsync`, as a function on the widgets: `installed` is
what `GetInstalledCoreVersion` returns and `latest` what `GetLatestCoreVersion` returns. The
updates queued with `fyne.Do` are applied in the order they are queued. -/
def updateVersionInfoAsync (installed latest : String × Option GoError) (w : VersionWidgets) :
    VersionWidgets :=
  let installedVersion := installed.1
  match installed.2 with
  | some _ =>
    let w1 : VersionWidgets :=
      { singboxStatusLabel :=
          { Text := "❌ sing-box.exe not found", Importance := .MediumImportance }
        downloadButton :=
          { Text := "Download", Enabled := true, Visible := true, Importance := .HighImportance } }
    if latest.2 = none ∧ latest.1 ≠ "" then
      { w1 with downloadButton := { w1.downloadButton with Text := "Download v" ++ latest.1 } }
    else
      { w1 with downloadButton := { w1.downloadButton with Text := "Download" } }
  | none =>
    let w1 : VersionWidgets :=
      { w with singboxStatusLabel := { Text := installedVersion, Importance := .MediumImportance } }
    match latest.2 with
    | some _ => { w1 with downloadButton := { w1.downloadButton with Visible := false } }
    | none =>
      if latest.1 ≠ "" ∧ compareVersions installedVersion latest.1 < 0 then
        { w1 with
          downloadButton :=
            { Text := "Update v" ++ latest.1, Enabled := true, Visible := true,
              Importance := .HighImportance } }
      else
        { w1 with downloadButton := { w1.downloadButton with Visible := false } }

/-- The version widgets as `createVersionBlock` creates them: the label `Checking...`, the
button `Download` of medium importance, disabled and shown. -/
def sampleVersionWidgets : VersionWidgets :=
  { singboxStatusLabel := { Text := "Checking...", Importance := .MediumImportance }
    downloadButton :=
      { Text := "Download", Enabled := false, Visible := true, Importance := .MediumImportance } }


/-! ## Preview field of the wizard (`ui/config_wizard.go`) -/

/-- The part of Go `WizardState` that holds the preview: `OutboundsPreview` is the text the entry
widget displays (`none` while the widget is nil) and `OutboundsPreviewText` the saved text. -/
structure WizardState where
  OutboundsPreview : Option String
  OutboundsPreviewText : String
  deriving DecidableEq, Repr

/-- Fyne `Entry.SetText` on the preview entry, with the `OnChanged` handler that
`createVLESSSourceTab` installs: the widget takes the text, and when it notifies the handler, the
handler sets the saved text again if the new text differs from it. `notifyAlways` tells whether
the widget notifies on every call or only when its text changed. The handler calls `SetText`
again, so the recursion is bounded by `fuel`. -/
def entrySetText (notifyAlways : Bool) : Nat → WizardState → String → WizardState
  | 0, st, _ => st
  | fuel + 1, st, text =>
    match st.OutboundsPreview with
    | none => st
    | some shown =>
      let st1 := { st with OutboundsPreview := some text }
      if notifyAlways || shown != text then
        if text ≠ st1.OutboundsPreviewText then
          entrySetText notifyAlways fuel st1 st1.OutboundsPreviewText
        else st1
      else st1

/-- The `OnChanged` handler of the preview entry. -/
def previewOnChanged (notifyAlways : Bool) (fuel : Nat) (st : WizardState) (text : String) :
    WizardState :=
  if text ≠ st.OutboundsPreviewText then entrySetText notifyAlways fuel st st.OutboundsPreviewText
  else st

/-- Go `setPreviewText`. -/
def setPreviewText (notifyAlways : Bool) (fuel : Nat) (st : WizardState) (text : String) :
    WizardState :=
  let st1 := { st with OutboundsPreviewText := text }
  match st1.OutboundsPreview with
  | some _ => entrySetText notifyAlways fuel st1 text
  | none => st1

/-- The user edits the preview entry: the widget takes the typed text and notifies the
handler. -/
def userEdit (notifyAlways : Bool) (fuel : Nat) (st : WizardState) (typed : String) :
    WizardState :=
  match st.OutboundsPreview with
  | none => st
  | some shown =>
    let st1 := { st with OutboundsPreview := some typed }
    if notifyAlways || shown != typed then previewOnChanged notifyAlways fuel st1 typed
    else st1

/-- The state in which `createVLESSSourceTab` leaves the preview: the placeholder text is saved
and displayed. -/
def initialPreview : WizardState :=
  { OutboundsPreview := some "Generated outbounds will appear here after clicking Parse..."
    OutboundsPreviewText := "Generated outbounds will appear here after clicking Parse..." }

/-- The states reached from the created tab by calls of `setPreviewText` and by user edits. Two
units of fuel cover the deepest chain of calls: `SetText`, handler, `SetText`. -/
inductive Reachable (notifyAlways : Bool) : WizardState → Prop where
  | created : Reachable notifyAlways initialPreview
  | setPreview (fuel : Nat) (st : WizardState) (text : String) :
      2 ≤ fuel → Reachable notifyAlways st →
      Reachable notifyAlways (setPreviewText notifyAlways fuel st text)
  | edited (fuel : Nat) (st : WizardState) (typed : String) :
      2 ≤ fuel → Reachable notifyAlways st →
      Reachable notifyAlways (userEdit notifyAlways fuel st typed)


/-! ## Source update, preview text and serialization of the wizard (`ui/config_wizard.go`) -/

/-- The source-update step of `parseAndPreview` (lines 358-365): the URL is written into the
first proxy source, or a source carrying only the URL is created when there is none. -/
def parseAndPreview_updateSource (parserConfig : ParserConfig) (url : String) : ParserConfig :=
  match parserConfig.ParserConfig.Proxies with
  | first :: others =>
    { parserConfig with
      ParserConfig :=
        { parserConfig.ParserConfig with Proxies := { first with Source := url } :: others } }
  | [] =>
    { parserConfig with
      ParserConfig :=
        { parserConfig.ParserConfig with
          Proxies := [{ Source := url, Connections := [], Skip := [] }] } }

/-- Go `strings.Join`. -/
def Join (elems : List String) (sep : String) : String :=
  sep.intercalate elems

/-- The generation step of `parseAndPreview` (lines 428-453): the list `selectorsJSON`. The
generators are `generateNodeJSONForPreview` and `generateSelectorForPreview`, wrappers of the
core, which return a text and an error. -/
def parseAndPreview_selectorsJSON (generateNodeJSONForPreview : ParsedNode → String × Option GoError)
    (generateSelectorForPreview : List ParsedNode → OutboundConfig → String × Option GoError)
    (allNodes : List ParsedNode) (outbounds : List OutboundConfig) : List String :=
  let afterNodes := allNodes.foldl
    (fun selectorsJSON node =>
      match generateNodeJSONForPreview node with
      | (_, some _) => selectorsJSON
      | (nodeJSON, none) => selectorsJSON ++ [nodeJSON])
    []
  outbounds.foldl
    (fun selectorsJSON outboundConfig =>
      match generateSelectorForPreview allNodes outboundConfig with
      | (_, some _) => selectorsJSON
      | (selectorJSON, none) =>
        if selectorJSON ≠ "" then selectorsJSON ++ [selectorJSON] else selectorsJSON)
    afterNodes

/-- The preview text that `parseAndPreview` sets last, from the node list `allNodes` on (lines
414-456): an error text when there is no node, the joined list otherwise. -/
def parseAndPreview_preview (generateNodeJSONForPreview : ParsedNode → String × Option GoError)
    (generateSelectorForPreview : List ParsedNode → OutboundConfig → String × Option GoError)
    (allNodes : List ParsedNode) (outbounds : List OutboundConfig) : String :=
  if allNodes.length = 0 then "Error: No valid nodes found in subscription"
  else
    Join (parseAndPreview_selectorsJSON generateNodeJSONForPreview generateSelectorForPreview
      allNodes outbounds) "\n"

/-- The JSON of a node, if its generation succeeds. -/
def nodeContribution (generate : ParsedNode → String × Option GoError) (node : ParsedNode) :
    Option String :=
  match generate node with
  | (_, some _) => none
  | (nodeJSON, none) => some nodeJSON

/-- The JSON of a selector, if its generation succeeds with a non-empty result. -/
def selectorContribution (generate : List ParsedNode → OutboundConfig → String × Option GoError)
    (allNodes : List ParsedNode) (outboundConfig : OutboundConfig) : Option String :=
  match generate allNodes outboundConfig with
  | (_, some _) => none
  | (selectorJSON, none) => if selectorJSON ≠ "" then some selectorJSON else none

/-- The preview as the specification words it: the contributions of the nodes in node order,
then those of the selectors in outbound order, joined by newlines. -/
def describedPreview (generateNode : ParsedNode → String × Option GoError)
    (generateSelector : List ParsedNode → OutboundConfig → String × Option GoError)
    (allNodes : List ParsedNode) (outbounds : List OutboundConfig) : String :=
  Join (allNodes.filterMap (nodeContribution generateNode) ++
    outbounds.filterMap (selectorContribution generateSelector allNodes)) "\n"

/-- A selector specification with the given tag. -/
def sampleOutbound (tag : String) : OutboundConfig :=
  { Tag := tag, OutboundType := "selector", Options := [], Proxies := [],
    AddOutbounds := ["direct-out"], Comment := "" }

/-- A node with the given tag. -/
def sampleNode (tag : String) : ParsedNode :=
  { Protocol := .vless, Identity := .uuid "4a3ece53-6000-4ba3-a9fa-fd0d7ba61cf3",
    Server := "example.com", Port := 443, TransportOptions := [], DisplayName := tag, Tag := tag,
    Outbound := none }

/-- A node generator that fails on the tag `bad` and returns the tag otherwise. -/
def sampleNodeJSON (node : ParsedNode) : String × Option GoError :=
  if node.Tag = "bad" then ("", some (.library "core" "no outbound")) else (node.Tag, none)

/-- A selector generator that fails on the tag `bad`, returns the empty text on the tag `empty`
and the tag otherwise. -/
def sampleSelectorJSON (_allNodes : List ParsedNode) (outboundConfig : OutboundConfig) :
    String × Option GoError :=
  if outboundConfig.Tag = "bad" then ("", some (.library "core" "no selector"))
  else if outboundConfig.Tag = "empty" then ("", none)
  else (outboundConfig.Tag, none)

/-- A Go value held by the map that `serializeParserConfig` builds: an int, the slices of the
configuration, or a `map[string]interface{}` as its entries. -/
inductive GoValue where
  | int (n : Int)
  | proxySources (proxies : List ProxySource)
  | outboundConfigs (outbounds : List OutboundConfig)
  | map (entries : List (String × GoValue))

/-- The keys of a Go map value. -/
def GoValue.keys : GoValue → List String
  | .map entries => entries.map Prod.fst
  | _ => []

/-- The value a Go map value holds under a key. -/
def GoValue.field : GoValue → String → Option GoValue
  | .map entries, key => entries.lookup key
  | _, _ => none

/-- The map `configToSerialize` that `serializeParserConfig` builds. -/
def configToSerialize (parserConfig : ParserConfig) : GoValue :=
  .map [("version", .int parserConfig.Version),
        ("ParserConfig",
          .map [("proxies", .proxySources parserConfig.ParserConfig.Proxies),
                ("outbounds", .outboundConfigs parserConfig.ParserConfig.Outbounds)])]

/-- Go `serializeParserConfig`; `marshalIndent` is `json.MarshalIndent` with the indentation the
function passes, returning the text or the message of its error, and `none` is the nil
pointer. -/
def serializeParserConfig (marshalIndent : GoValue → Except String String)
    (parserConfig : Option ParserConfig) : String × Option GoError :=
  match parserConfig with
  | none => ("", some (.errorf "parserConfig is nil"))
  | some cfg =>
    match marshalIndent (configToSerialize cfg) with
    | .error msg => ("", some (.library "encoding/json" msg))
    | .ok data => (data, none)


/-! ## Theorems -/

theorem parseAndPreview_step_eq (parse : LinkParser) (proxies : List ProxySource)
    (acc : List ParsedNode) (line : String) :
    parseAndPreview_step parse proxies acc line =
      acc ++ (lineContribution parse (wizardSkipFilters proxies) line).toList := by
  unfold parseAndPreview_step lineContribution
  by_cases hb : TrimSpace line = ""
  · simp [hb]
  · simp only [hb, if_false]
    rcases h : parse (TrimSpace line) (wizardSkipFilters proxies) with ⟨n, e⟩
    cases n <;> cases e <;> simp

theorem foldl_step_eq (parse : LinkParser) (proxies : List ProxySource) (lines : List String) :
    ∀ acc : List ParsedNode,
      lines.foldl (parseAndPreview_step parse proxies) acc =
        acc ++ lines.filterMap (lineContribution parse (wizardSkipFilters proxies)) := by
  induction lines with
  | nil => intro acc; simp
  | cons l ls ih =>
    intro acc
    rw [List.foldl_cons, ih, parseAndPreview_step_eq, List.filterMap_cons]
    cases lineContribution parse (wizardSkipFilters proxies) l <;> simp

/-! ### Decimal rendering -/

theorem digitChar_value (d : Nat) (h : d < 10) : (Nat.digitChar d).toNat - 48 = d := by
  interval_cases d <;> rfl

theorem toDigitsCore_value (fuel : Nat) : ∀ (n : Nat) (ds : List Char), n < fuel →
    decimalValue 0 (Nat.toDigitsCore 10 fuel n ds) = decimalValue n ds := by
  induction fuel with
  | zero => intro n ds h; omega
  | succ fuel ih =>
    intro n ds h
    rw [Nat.toDigitsCore]
    by_cases hq : n / 10 = 0
    · simp only [hq, if_true]
      have hn : n < 10 := by omega
      simp only [decimalValue, List.foldl_cons, Nat.zero_mul, Nat.zero_add]
      rw [digitChar_value _ (Nat.mod_lt _ (by norm_num)), Nat.mod_eq_of_lt hn]
    · simp only [hq, if_false]
      rw [ih (n / 10) _ (by omega)]
      simp only [decimalValue, List.foldl_cons]
      rw [digitChar_value _ (Nat.mod_lt _ (by norm_num))]
      congr 1
      omega

theorem toString_nat_injective : Function.Injective (fun n : Nat => toString n) := by
  intro a b h
  have h1 : Nat.toDigits 10 a = Nat.toDigits 10 b := by
    have := congrArg String.data h
    simpa [toString, Nat.repr, List.asString] using this
  have ha := toDigitsCore_value (a + 1) a [] (by omega)
  have hb := toDigitsCore_value (b + 1) b [] (by omega)
  unfold Nat.toDigits at h1
  rw [h1] at ha
  rw [ha] at hb
  simpa [decimalValue] using hb

/-! ### Tag ledger and allocator -/

theorem suffixed_injective (base : String) : Function.Injective (suffixed base) := by
  intro a b h
  unfold suffixed at h
  have h1 := congrArg String.data h
  simp only [String.data_append, List.append_assoc] at h1
  have h2 := List.append_cancel_left (List.append_cancel_left h1)
  exact toString_nat_injective (String.ext h2)

theorem count_markUsed_self (ledger : TagLedger) (tag : String) :
    (ledger.markUsed tag).count tag = 1 := by
  simp [TagLedger.count, TagLedger.markUsed, List.lookup]

theorem count_markUsed_of_ne (ledger : TagLedger) (tag other : String) (h : other ≠ tag) :
    (ledger.markUsed tag).count other = ledger.count other := by
  have hb : (other == tag) = false := by simpa using h
  simp [TagLedger.count, TagLedger.markUsed, List.lookup, hb]

theorem count_markUsed_ne_zero (ledger : TagLedger) (tag other : String)
    (h : ledger.count other ≠ 0) : (ledger.markUsed tag).count other ≠ 0 := by
  by_cases ho : other = tag
  · subst ho; rw [count_markUsed_self]; exact one_ne_zero
  · rw [count_markUsed_of_ne _ _ _ ho]; exact h

theorem mem_keys_of_count_ne_zero (ledger : TagLedger) (tag : String)
    (h : ledger.count tag ≠ 0) : tag ∈ ledger.map Prod.fst := by
  induction ledger with
  | nil => simp [TagLedger.count] at h
  | cons entry rest ih =>
    obtain ⟨k, v⟩ := entry
    by_cases hk : tag = k
    · simp [hk]
    · have hb : (tag == k) = false := by simpa using hk
      have h1 : TagLedger.count rest tag ≠ 0 := by
        simpa [TagLedger.count, List.lookup, hb] using h
      simp [ih h1]

theorem findCounter_none (ledger : TagLedger) (base : String) :
    ∀ (fuel start : Nat), findCounter ledger base fuel start = none →
      ∀ i, i < fuel → ledger.count (suffixed base (start + i)) ≠ 0 := by
  intro fuel
  induction fuel with
  | zero => intro start _ i hi; omega
  | succ fuel ih =>
    intro start h i hi
    rw [findCounter] at h
    by_cases h0 : ledger.count (suffixed base start) = 0
    · simp [h0] at h
    · simp only [h0, if_false] at h
      cases i with
      | zero => simpa using h0
      | succ j =>
        have := ih (start + 1) h j (by omega)
        have e : start + (j + 1) = start + 1 + j := by omega
        rw [e]; exact this

theorem findCounter_some (ledger : TagLedger) (base : String) :
    ∀ (fuel start n : Nat), findCounter ledger base fuel start = some n →
      start ≤ n ∧ ledger.count (suffixed base n) = 0 ∧
        ∀ m, start ≤ m → m < n → ledger.count (suffixed base m) ≠ 0 := by
  intro fuel
  induction fuel with
  | zero => intro start n h; simp [findCounter] at h
  | succ fuel ih =>
    intro start n h
    rw [findCounter] at h
    by_cases h0 : ledger.count (suffixed base start) = 0
    · simp only [h0, if_true, Option.some.injEq] at h
      subst h
      exact ⟨le_refl _, h0, fun m h1 h2 => absurd h1 (by omega)⟩
    · simp only [h0, if_false] at h
      obtain ⟨h1, h2, h3⟩ := ih (start + 1) n h
      refine ⟨by omega, h2, fun m hm1 hm2 => ?_⟩
      by_cases hm : m = start
      · subst hm; exact h0
      · exact h3 m (by omega) hm2

theorem findCounter_isSome (ledger : TagLedger) (base : String) (start : Nat) :
    (findCounter ledger base (ledger.length + 1) start).isSome = true := by
  by_contra hcon
  have hnone : findCounter ledger base (ledger.length + 1) start = none := by
    cases h : findCounter ledger base (ledger.length + 1) start with
    | none => rfl
    | some n => simp [h] at hcon
  have hused := findCounter_none ledger base _ start hnone
  have hnodup : ((List.range (ledger.length + 1)).map
      (fun i => suffixed base (start + i))).Nodup := by
    refine (List.nodup_range _).map ?_
    intro a b hab
    have := suffixed_injective base hab
    omega
  have hsub : (List.range (ledger.length + 1)).map (fun i => suffixed base (start + i)) ⊆
      ledger.map Prod.fst := by
    intro t ht
    obtain ⟨i, hi, rfl⟩ := List.mem_map.mp ht
    exact mem_keys_of_count_ne_zero ledger _ (hused i (List.mem_range.mp hi))
  have hlen := (List.subperm_of_subset hnodup hsub).length_le
  simp at hlen

theorem allocate_result (ledger : TagLedger) (base : String) (ordinal total : Nat) :
    ∃ tag, allocate ledger base ordinal total = some (tag, ledger.markUsed tag) ∧
      ledger.count tag = 0 := by
  unfold allocate
  by_cases h0 : ledger.count base = 0
  · exact ⟨base, by simp [h0], h0⟩
  · simp only [h0, if_false]
    have hs := findCounter_isSome ledger base 2
    cases hf : findCounter ledger base (ledger.length + 1) 2 with
    | none => simp [hf] at hs
    | some n => exact ⟨suffixed base n, rfl, (findCounter_some ledger base _ 2 n hf).2.1⟩

theorem generateOutbound_retag (D : Deps) (node : ParsedNode) (d : Descriptor) (tag : String)
    (o : Option Descriptor) (h : generateOutbound D node = .ok d) :
    ∃ d1, generateOutbound D { node with Tag := tag, Outbound := o } = .ok d1 := by
  unfold generateOutbound at h ⊢
  cases ht : D.transportKeys node.Protocol node.Identity node.TransportOptions with
  | none => simp [ht] at h
  | some extra => simp

theorem ParseNode_some (D : Deps) (uri : String) (skip : List FilterRule) (node : ParsedNode)
    (h : ParseNode D uri skip = .ok (some node)) :
    ∃ prov d, buildNode D uri = .ok prov ∧ anyMatch D prov skip = false ∧
      generateOutbound D { prov with Tag := slugify prov.DisplayName } = .ok d ∧
      node = { prov with Tag := slugify prov.DisplayName, Outbound := some d } := by
  unfold ParseNode at h
  cases hb : buildNode D uri with
  | error e => simp [hb] at h
  | ok prov =>
    simp only [hb] at h
    by_cases hm : anyMatch D prov skip = true
    · simp [hm] at h
    · simp only [hm] at h
      cases hg : generateOutbound D { prov with Tag := slugify prov.DisplayName } with
      | error e => simp [hg] at h
      | ok d =>
        simp only [hg] at h
        refine ⟨prov, d, rfl, by simpa using hm, hg, ?_⟩
        simpa using h.symm

/-- Effect of `processLink` on a state: either nothing changes, or one node with a tag that was
unused in the ledger is appended and that tag is marked used. -/
theorem processLink_cases (D : Deps) (skip : List FilterRule) (ordinal total : Nat)
    (st : ProcessState) (raw : String) :
    processLink D skip ordinal total st raw = st ∨
      ∃ node, st.ledger.count node.Tag = 0 ∧
        processLink D skip ordinal total st raw =
          { nodes := st.nodes ++ [node], ledger := st.ledger.markUsed node.Tag } := by
  unfold processLink
  by_cases hb : TrimSpace raw = ""
  · left; simp [hb]
  · simp only [hb, if_false]
    cases hp : ParseNode D (TrimSpace raw) skip with
    | error e => left; rfl
    | ok r =>
      cases r with
      | none => left; rfl
      | some node =>
        obtain ⟨tag, ha, hc⟩ := allocate_result st.ledger node.Tag ordinal total
        simp only [ha]
        cases hg : generateOutbound D { node with Tag := tag, Outbound := none } with
        | error e => left; rfl
        | ok d =>
          right
          exact ⟨{ node with Tag := tag, Outbound := some d }, hc, rfl⟩

/-- Invariant of a batch: the tags issued so far are pairwise distinct and used in the ledger. -/
theorem processLink_invariant (D : Deps) (skip : List FilterRule) (ordinal total : Nat)
    (issued : List String) (st : ProcessState) (raw : String)
    (hnd : (issued ++ st.nodes.map (fun n => n.Tag)).Nodup)
    (hused : ∀ t ∈ issued ++ st.nodes.map (fun n => n.Tag), st.ledger.count t ≠ 0) :
    (issued ++ (processLink D skip ordinal total st raw).nodes.map (fun n => n.Tag)).Nodup ∧
      ∀ t ∈ issued ++ (processLink D skip ordinal total st raw).nodes.map (fun n => n.Tag),
        (processLink D skip ordinal total st raw).ledger.count t ≠ 0 := by
  rcases processLink_cases D skip ordinal total st raw with h | ⟨node, hc, h⟩
  · rw [h]; exact ⟨hnd, hused⟩
  · rw [h]
    simp only [List.map_append, List.map_cons, List.map_nil, ← List.append_assoc]
    constructor
    · rw [List.nodup_append]
      refine ⟨hnd, List.nodup_singleton _, ?_⟩
      intro t ht1 ht2
      rw [List.mem_singleton] at ht2
      subst ht2
      exact hused _ ht1 hc
    · intro t ht
      rcases List.mem_append.mp ht with h1 | h1
      · exact count_markUsed_ne_zero _ _ _ (hused t h1)
      · rw [List.mem_singleton] at h1
        subst h1
        rw [count_markUsed_self]; exact one_ne_zero

theorem foldl_processLink_invariant (D : Deps) (skip : List FilterRule) (ordinal total : Nat)
    (issued : List String) (links : List String) :
    ∀ st : ProcessState,
      (issued ++ st.nodes.map (fun n => n.Tag)).Nodup →
      (∀ t ∈ issued ++ st.nodes.map (fun n => n.Tag), st.ledger.count t ≠ 0) →
      (issued ++ (links.foldl (processLink D skip ordinal total) st).nodes.map
          (fun n => n.Tag)).Nodup ∧
        ∀ t ∈ issued ++ (links.foldl (processLink D skip ordinal total) st).nodes.map
            (fun n => n.Tag),
          (links.foldl (processLink D skip ordinal total) st).ledger.count t ≠ 0 := by
  induction links with
  | nil => intro st h1 h2; exact ⟨h1, h2⟩
  | cons l ls ih =>
    intro st h1 h2
    rw [List.foldl_cons]
    obtain ⟨h3, h4⟩ := processLink_invariant D skip ordinal total issued st l h1 h2
    exact ih _ h3 h4

theorem ProcessProxySource_invariant (D : Deps) (source : ProxySource) (ledger : TagLedger)
    (defaultSkip : List FilterRule) (ordinal total : Nat) (issued : List String)
    (nodes : List ParsedNode) (ledger1 : TagLedger)
    (h : ProcessProxySource D source ledger defaultSkip ordinal total = .ok (nodes, ledger1))
    (hnd : issued.Nodup) (hused : ∀ t ∈ issued, ledger.count t ≠ 0) :
    (issued ++ nodes.map (fun n => n.Tag)).Nodup ∧
      ∀ t ∈ issued ++ nodes.map (fun n => n.Tag), ledger1.count t ≠ 0 := by
  unfold ProcessProxySource at h
  cases hl : sourceLinks D source with
  | error e => simp [hl] at h
  | ok links =>
    simp only [hl, Except.ok.injEq, Prod.mk.injEq] at h
    obtain ⟨hn, hle⟩ := h
    have := foldl_processLink_invariant D (source.Skip ++ defaultSkip) ordinal total issued links
      { nodes := [], ledger := ledger } (by simpa using hnd) (by simpa using hused)
    rw [hn, hle] at this
    exact this

theorem runCalls_invariant (D : Deps) (calls : List SourceCall) :
    ∀ (ledger : TagLedger) (issued : List String), issued.Nodup →
      (∀ t ∈ issued, ledger.count t ≠ 0) →
      (issued ++ (runCalls D calls ledger).1.map (fun n => n.Tag)).Nodup := by
  induction calls with
  | nil => intro ledger issued h1 _; simpa [runCalls] using h1
  | cons call calls ih =>
    intro ledger issued h1 h2
    rw [runCalls]
    cases hp : ProcessProxySource D call.source ledger call.defaultSkip call.ordinal call.total with
    | error e => exact ih ledger issued h1 h2
    | ok r =>
      obtain ⟨nodes, ledger1⟩ := r
      obtain ⟨h3, h4⟩ := ProcessProxySource_invariant D call.source ledger call.defaultSkip
        call.ordinal call.total issued nodes ledger1 hp h1 h2
      have := ih ledger1 (issued ++ nodes.map (fun n => n.Tag)) h3 h4
      simpa [List.append_assoc] using this

/-- C1: for every sequence of ProcessProxySource calls that share one tag ledger starting empty,
the nodes returned across those calls carry pairwise distinct tags, however many links have the
same display name. -/
theorem runCalls_tags_pairwise_distinct (D : Deps) (calls : List SourceCall) :
    ((runCalls D calls []).1.map (fun n => n.Tag)).Pairwise (fun a b => a ≠ b) := by
  have h := runCalls_invariant D calls [] [] List.nodup_nil (by simp)
  simpa [List.Nodup] using h
theorem processLink_valid (D : Deps) (skip : List FilterRule) (ordinal total : Nat)
    (st : ProcessState) (raw : String) (node : ParsedNode) (tag : String) (ledger1 : TagLedger)
    (hb : TrimSpace raw ≠ "")
    (hp : ParseNode D (TrimSpace raw) skip = .ok (some node))
    (ha : allocate st.ledger node.Tag ordinal total = some (tag, ledger1)) :
    ∃ d, generateOutbound D { node with Tag := tag, Outbound := none } = .ok d ∧
      processLink D skip ordinal total st raw =
        { nodes := st.nodes ++ [{ node with Tag := tag, Outbound := some d }],
          ledger := ledger1 } := by
  obtain ⟨prov, d0, _, _, hg, hn⟩ := ParseNode_some D _ _ _ hp
  obtain ⟨d, hd⟩ := generateOutbound_retag D _ d0 tag none hg
  have hd1 : generateOutbound D { node with Tag := tag, Outbound := none } = .ok d := by
    rw [hn]; exact hd
  refine ⟨d, hd1, ?_⟩
  unfold processLink
  simp only [hb, if_false, hp, ha, hd1]

/-- The link of the example in the description of the allocator. -/
theorem testLink_trimmed :
    TrimSpace "vless://uuid@host:443?encryption=none&security=none#Test" =
      "vless://uuid@host:443?encryption=none&security=none#Test" := by
  decide

/-- C8: tag allocation. A base tag with count 0 is returned unchanged and its count becomes 1; a
used base tag gets the suffix "-n" for the smallest n from 2 on whose suffixed tag is unused, and
that tag is marked used. Two sources whose single link has the fragment "Test", processed in
source-ordinal order against one ledger, receive the tags "Test" and "Test-2". -/
theorem allocate_spec :
    (∀ (ledger : TagLedger) (base : String) (ordinal total : Nat), ledger.count base = 0 →
      ∃ ledger1, allocate ledger base ordinal total = some (base, ledger1) ∧
        ledger1.count base = 1) ∧
    (∀ (ledger : TagLedger) (base : String) (ordinal total : Nat), ledger.count base ≠ 0 →
      ∃ n ledger1, 2 ≤ n ∧
        allocate ledger base ordinal total = some (base ++ "-" ++ toString n, ledger1) ∧
        ledger.count (base ++ "-" ++ toString n) = 0 ∧
        (∀ m, 2 ≤ m → m < n → ledger.count (base ++ "-" ++ toString m) ≠ 0) ∧
        ledger1.count (base ++ "-" ++ toString n) = 1) ∧
    (∀ (D : Deps) (node : ParsedNode),
      ParseNode D "vless://uuid@host:443?encryption=none&security=none#Test" [] =
        .ok (some node) →
      node.DisplayName = "Test" →
      (runCalls D
        [{ source := ⟨"", ["vless://uuid@host:443?encryption=none&security=none#Test"], []⟩,
           defaultSkip := [], ordinal := 0, total := 2 },
         { source := ⟨"", ["vless://uuid@host:443?encryption=none&security=none#Test"], []⟩,
           defaultSkip := [], ordinal := 1, total := 2 }] []).1.map (fun n => n.Tag) =
        ["Test", "Test-2"]) := by
  refine ⟨?_, ?_, ?_⟩
  · intro ledger base ordinal total h0
    exact ⟨ledger.markUsed base, by simp [allocate, h0], count_markUsed_self _ _⟩
  · intro ledger base ordinal total h0
    have hs := findCounter_isSome ledger base 2
    cases hf : findCounter ledger base (ledger.length + 1) 2 with
    | none => simp [hf] at hs
    | some n =>
      obtain ⟨h1, h2, h3⟩ := findCounter_some ledger base _ 2 n hf
      refine ⟨n, ledger.markUsed (suffixed base n), h1, ?_, h2, h3, count_markUsed_self _ _⟩
      simp [allocate, h0, hf, suffixed]
  · intro D node hp hname
    obtain ⟨prov, d0, _, _, _, hn⟩ := ParseNode_some D _ _ _ hp
    have htag : node.Tag = "Test" := by
      have h1 : node.Tag = slugify node.DisplayName := by rw [hn]
      rw [h1, hname]; decide
    have hne : TrimSpace "vless://uuid@host:443?encryption=none&security=none#Test" ≠ "" := by
      decide
    have hp1 := hp
    rw [← testLink_trimmed] at hp1
    have ha0 : allocate [] node.Tag 0 2 = some ("Test", [("Test", 1)]) := by
      rw [htag]; decide
    have ha1 : allocate [("Test", 1)] node.Tag 1 2 = some ("Test-2", [("Test-2", 1), ("Test", 1)]) := by
      rw [htag]; decide
    obtain ⟨d1, _, e1⟩ := processLink_valid D [] 0 2 { nodes := [], ledger := [] } _ node _ _
      hne hp1 ha0
    obtain ⟨d2, _, e2⟩ := processLink_valid D [] 1 2 { nodes := [], ledger := [("Test", 1)] } _
      node _ _ hne hp1 ha1
    simp [runCalls, ProcessProxySource, sourceLinks, e1, e2]
theorem allocate_spec_witness :
    (∃ ledger1, allocate [] "Test" 0 2 = some ("Test", ledger1) ∧ ledger1.count "Test" = 1) ∧
    (runCalls sampleDeps
      [{ source := ⟨"", ["vless://uuid@host:443?encryption=none&security=none#Test"], []⟩,
         defaultSkip := [], ordinal := 0, total := 2 },
       { source := ⟨"", ["vless://uuid@host:443?encryption=none&security=none#Test"], []⟩,
         defaultSkip := [], ordinal := 1, total := 2 }] []).1.map (fun n => n.Tag) =
      ["Test", "Test-2"] :=
  ⟨allocate_spec.1 [] "Test" 0 2 (by decide),
   allocate_spec.2.2 sampleDeps
     { Protocol := .vless, Identity := .uuid "uuid", Server := "host", Port := 443,
       TransportOptions := [("encryption", "none"), ("security", "none")],
       DisplayName := "Test", Tag := "Test",
       Outbound := some [("tag", .str "Test"), ("type", .str "vless"), ("server", .str "host"),
         ("server_port", .num 443)] }
     (by rfl) (by rfl)⟩

/-! ### Link parser -/

theorem buildNode_empty (D : Deps) : buildNode D "" = .error .UnsupportedScheme := by
  rfl

theorem validLink_ne_empty (D : Deps) (uri : String) (h : validLink D uri = true) : uri ≠ "" := by
  intro he
  subst he
  simp [validLink, buildNode_empty] at h

theorem validLink_iff (D : Deps) (uri : String) :
    validLink D uri = true ↔
      ∃ prov extra, buildNode D uri = .ok prov ∧
        D.transportKeys prov.Protocol prov.Identity prov.TransportOptions = some extra := by
  unfold validLink
  cases hb : buildNode D uri with
  | error e => simp
  | ok prov =>
    simp only [Except.ok.injEq, exists_and_left, exists_eq_left']
    exact Option.isSome_iff_exists

/-- On a link that builds a provisional node with a supported transport, `ParseNode` never fails:
it skips the link when a rule matches and returns a node otherwise. -/
theorem ParseNode_of_valid (D : Deps) (uri : String) (skip : List FilterRule)
    (prov : ParsedNode) (extra : Descriptor) (hb : buildNode D uri = .ok prov)
    (ht : D.transportKeys prov.Protocol prov.Identity prov.TransportOptions = some extra) :
    (anyMatch D prov skip = true → ParseNode D uri skip = .ok none) ∧
    (anyMatch D prov skip = false → ∃ node, ParseNode D uri skip = .ok (some node) ∧
      node.DisplayName = prov.DisplayName ∧ node.Tag = slugify prov.DisplayName) := by
  constructor
  · intro hm
    simp [ParseNode, hb, hm]
  · intro hm
    simp [ParseNode, hb, hm, generateOutbound, ht]

theorem ParseNode_none (D : Deps) (uri : String) (skip : List FilterRule)
    (h : ParseNode D uri skip = .ok none) :
    ∃ prov, buildNode D uri = .ok prov ∧ anyMatch D prov skip = true := by
  unfold ParseNode at h
  cases hb : buildNode D uri with
  | error e => simp [hb] at h
  | ok prov =>
    simp only [hb] at h
    by_cases hm : anyMatch D prov skip = true
    · exact ⟨prov, rfl, hm⟩
    · simp only [hm] at h
      cases hg : generateOutbound D { prov with Tag := slugify prov.DisplayName } with
      | error e => simp [hg] at h
      | ok d => simp [hg] at h

theorem anyMatch_iff (D : Deps) (node : ParsedNode) (rules : List FilterRule) :
    anyMatch D node rules = true ↔
      ∃ rule ∈ rules, ∃ value, fieldValue node rule.key = some value ∧
        matchesPattern D value rule.pattern = true := by
  unfold anyMatch
  rw [List.any_eq_true]
  constructor
  · rintro ⟨rule, hr, hm⟩
    refine ⟨rule, hr, ?_⟩
    unfold ruleMatches at hm
    cases hf : fieldValue node rule.key with
    | none => simp [hf] at hm
    | some value => exact ⟨value, rfl, by simpa [hf] using hm⟩
  · rintro ⟨rule, hr, value, hf, hm⟩
    exact ⟨rule, hr, by simp [ruleMatches, hf, hm]⟩

theorem foldl_processLink_valid (D : Deps) (skip : List FilterRule) (ordinal total : Nat)
    (links : List String) :
    (∀ l ∈ links, ∃ node, TrimSpace l ≠ "" ∧ ParseNode D (TrimSpace l) skip = .ok (some node)) →
    ∀ st : ProcessState,
      (links.foldl (processLink D skip ordinal total) st).nodes.length =
        st.nodes.length + links.length := by
  induction links with
  | nil => intro _ st; simp
  | cons l ls ih =>
    intro h st
    obtain ⟨node, hne, hp⟩ := h l (List.mem_cons_self _ _)
    obtain ⟨tag, ha, _⟩ := allocate_result st.ledger node.Tag ordinal total
    obtain ⟨d, _, hstep⟩ := processLink_valid D skip ordinal total st l node tag _ hne hp ha
    rw [List.foldl_cons, ih (fun x hx => h x (List.mem_cons_of_mem _ hx)), hstep]
    simp
    omega

/-- C2: ParseNode returns a nil node with a nil error only if a rule of skipFilters matched one of
the exposed fields of the node; with no skip filters every valid link of a supported scheme
yields a node, and ProcessProxySource over n valid links with nil filters returns exactly n
nodes. -/
theorem ParseNode_skip_only_on_match :
    (∀ (D : Deps) (uri : String) (skipFilters : List FilterRule),
      ParseNode D uri skipFilters = .ok none →
      ∃ provisional, buildNode D uri = .ok provisional ∧
        ∃ rule ∈ skipFilters, ∃ value, fieldValue provisional rule.key = some value ∧
          matchesPattern D value rule.pattern = true) ∧
    (∀ (D : Deps) (uri : String), validLink D uri = true →
      ∃ node, ParseNode D uri [] = .ok (some node)) ∧
    (∀ (D : Deps) (links : List String) (tagCounts : TagLedger) (ordinal total : Nat),
      (∀ l ∈ links, validLink D (TrimSpace l) = true) →
      ∃ nodes ledger,
        ProcessProxySource D { Source := "", Connections := links, Skip := [] } tagCounts []
          ordinal total = .ok (nodes, ledger) ∧
        nodes.length = links.length) := by
  refine ⟨?_, ?_, ?_⟩
  · intro D uri skip h
    obtain ⟨prov, hb, hm⟩ := ParseNode_none D uri skip h
    exact ⟨prov, hb, (anyMatch_iff D prov skip).mp hm⟩
  · intro D uri hv
    obtain ⟨prov, extra, hb, ht⟩ := (validLink_iff D uri).mp hv
    obtain ⟨node, hn, _⟩ := (ParseNode_of_valid D uri [] prov extra hb ht).2 (by simp [anyMatch])
    exact ⟨node, hn⟩
  · intro D links tagCounts ordinal total hv
    refine ⟨_, _, rfl, ?_⟩
    have := foldl_processLink_valid D [] ordinal total links (fun l hl => by
      obtain ⟨prov, extra, hb, ht⟩ := (validLink_iff D _).mp (hv l hl)
      obtain ⟨node, hn, _⟩ := (ParseNode_of_valid D _ [] prov extra hb ht).2 (by simp [anyMatch])
      exact ⟨node, validLink_ne_empty D _ (hv l hl), hn⟩) { nodes := [], ledger := tagCounts }
    simpa [sourceLinks] using this

/-! ### Filter engine -/

theorem Contains_iff (s sub : String) : Contains s sub = true ↔ sub.data <:+: s.data := by
  unfold Contains
  rw [List.any_eq_true]
  constructor
  · rintro ⟨t, ht, hp⟩
    rw [List.mem_tails] at ht
    rw [List.isPrefixOf_iff_prefix] at hp
    exact List.infix_iff_prefix_suffix.mpr ⟨t, hp, ht⟩
  · intro h
    obtain ⟨t, hp, hs⟩ := List.infix_iff_prefix_suffix.mp h
    exact ⟨t, (List.mem_tails _ _).mpr hs, List.isPrefixOf_iff_prefix.mpr hp⟩

theorem parsePattern_slashes (body : String) :
    parsePattern ("/" ++ body ++ "/") = .regex body false := by
  have hd : ("/" ++ body ++ "/").data = '/' :: (body.data ++ ['/']) := by
    simp [String.data_append]
  unfold parsePattern
  rw [hd]
  simp

theorem parsePattern_slashes_i (body : String) :
    parsePattern ("/" ++ body ++ "/i") = .regex body true := by
  have hd : ("/" ++ body ++ "/i").data = '/' :: (body.data ++ ['/', 'i']) := by
    simp [String.data_append]
  unfold parsePattern
  rw [hd]
  simp

/-- A pattern is delimited when it reads `/body/` or `/body/i` for some body. -/
theorem parsePattern_literal (p : String)
    (h : ∀ body : String, p ≠ "/" ++ body ++ "/" ∧ p ≠ "/" ++ body ++ "/i") :
    parsePattern p = .literal p := by
  unfold parsePattern
  split
  · rename_i rest hp
    split
    · rename_i bodyRev hr
      exfalso
      apply (h ⟨bodyRev.reverse⟩).1
      apply String.ext
      have : rest = bodyRev.reverse ++ ['/'] := by
        have := congrArg List.reverse hr
        simpa using this
      simp [String.data_append, hp, this]
    · rename_i bodyRev hr
      exfalso
      apply (h ⟨bodyRev.reverse⟩).2
      apply String.ext
      have : rest = bodyRev.reverse ++ ['/', 'i'] := by
        have := congrArg List.reverse hr
        simpa using this
      simp [String.data_append, hp, this]
    · rfl
  · rfl

theorem fieldValue_unknown (node : ParsedNode) (key : String)
    (h : key ≠ "tag" ∧ key ≠ "server" ∧ key ≠ "sni") : fieldValue node key = none := by
  simp [fieldValue, h.1, h.2.1, h.2.2]

/-- C9: filter pattern syntax. On a field with value v, a pattern /body/ matches iff v matches
body, /body/i matches iff v matches body ignoring letter case, and a pattern that is not
delimited, such as "!/(DO_NOT_USE_THIS)/i" of the default template, matches iff the whole pattern
string occurs in v as a literal substring; a rule whose key names no known field never matches. -/
theorem ruleMatches_pattern_forms (D : Deps) (node : ParsedNode) (key : String) :
    (∀ value, fieldValue node key = some value →
      (∀ body : String,
        ruleMatches D node ⟨key, "/" ++ body ++ "/"⟩ = D.reMatch false body value ∧
        ruleMatches D node ⟨key, "/" ++ body ++ "/i"⟩ = D.reMatch true body value) ∧
      (∀ p : String, (∀ body : String, p ≠ "/" ++ body ++ "/" ∧ p ≠ "/" ++ body ++ "/i") →
        (ruleMatches D node ⟨key, p⟩ = true ↔ p.data <:+: value.data)) ∧
      (ruleMatches D node ⟨key, "!/(DO_NOT_USE_THIS)/i"⟩ = true ↔
        "!/(DO_NOT_USE_THIS)/i".data <:+: value.data)) ∧
    (fieldValue node key = none → ∀ p : String, ruleMatches D node ⟨key, p⟩ = false) ∧
    (key ≠ "tag" ∧ key ≠ "server" ∧ key ≠ "sni" →
      ∀ p : String, ruleMatches D node ⟨key, p⟩ = false) := by
  refine ⟨?_, ?_, ?_⟩
  · intro value hf
    refine ⟨?_, ?_, ?_⟩
    · intro body
      simp [ruleMatches, hf, matchesPattern, parsePattern_slashes, parsePattern_slashes_i]
    · intro p hp
      simp [ruleMatches, hf, matchesPattern, parsePattern_literal p hp, Contains_iff]
    · have : parsePattern "!/(DO_NOT_USE_THIS)/i" = .literal "!/(DO_NOT_USE_THIS)/i" := by
        decide
      simp [ruleMatches, hf, matchesPattern, this, Contains_iff]
  · intro hf p
    simp [ruleMatches, hf]
  · intro hk p
    simp [ruleMatches, fieldValue_unknown node key hk]

/-! ### Nodes the parser builds -/

theorem displayNameOf_ne_empty (D : Deps) (fragment : Option (List Char)) (server : String)
    (port : Nat) : displayNameOf D fragment server port ≠ "" := by
  unfold displayNameOf
  simp only
  split
  · intro h
    have := congrArg String.data h
    simp [String.data_append] at this
  · assumption

theorem buildNode_ok (D : Deps) (uri : String) (prov : ParsedNode)
    (h : buildNode D uri = .ok prov) :
    prov.Tag = "" ∧ prov.Outbound = none ∧ prov.Server ≠ "" ∧ 0 < prov.Port ∧
      prov.DisplayName ≠ "" := by
  unfold buildNode at h
  split at h
  · simp at h
  · simp only at h
    split at h
    · simp at h
    · split at h
      · split at h
        · split at h
          · simp at h
          · rename_i host portText _ port options _ _ hcond
            simp only [Except.ok.injEq] at h
            subst h
            simp only [not_or] at hcond
            refine ⟨rfl, rfl, ?_, Nat.pos_of_ne_zero hcond.2, displayNameOf_ne_empty _ _ _ _⟩
            intro he
            exact hcond.1 (by simpa using congrArg String.data he)
        · simp at h
      · simp at h

theorem collapseSpaces_ne_nil (c : Char) (cs : List Char) :
    collapseSpaces false (c :: cs) ≠ [] := by
  unfold collapseSpaces
  by_cases h : isSpace c = true <;> simp [h]

theorem slugify_ne_empty (name : String) (h : name ≠ "") : slugify name ≠ "" := by
  intro he
  have hd := congrArg String.data he
  simp only [slugify] at hd
  obtain ⟨cs⟩ := name
  cases cs with
  | nil => exact h rfl
  | cons c cs =>
    have := collapseSpaces_ne_nil c cs
    simp at hd
    exact this hd

theorem suffixed_ne_empty (base : String) (n : Nat) : suffixed base n ≠ "" := by
  intro he
  have hd := congrArg String.data he
  simp [suffixed, String.data_append] at hd

theorem allocate_tag_ne_empty (ledger : TagLedger) (base : String) (ordinal total : Nat)
    (tag : String) (ledger1 : TagLedger) (hb : base ≠ "")
    (h : allocate ledger base ordinal total = some (tag, ledger1)) : tag ≠ "" := by
  unfold allocate at h
  split at h
  · simp only [Option.some.injEq, Prod.mk.injEq] at h
    rw [← h.1]; exact hb
  · split at h
    · simp only [Option.some.injEq, Prod.mk.injEq] at h
      rw [← h.1]; exact suffixed_ne_empty _ _
    · simp at h

theorem typeName_ne_empty (p : Protocol) : p.typeName ≠ "" := by
  cases p <;> decide

theorem generateOutbound_keys (D : Deps) (node : ParsedNode) (d : Descriptor)
    (h : generateOutbound D node = .ok d) (htag : node.Tag ≠ "") (hserver : node.Server ≠ "")
    (hport : 0 < node.Port) : hasRequiredKeys d = true := by
  unfold generateOutbound at h
  split at h
  · simp at h
  · simp only [Except.ok.injEq] at h
    subst h
    have e1 : ("type" == "tag") = false := by decide
    have e2 : ("server" == "tag") = false := by decide
    have e3 : ("server" == "type") = false := by decide
    have e4 : ("server_port" == "tag") = false := by decide
    have e5 : ("server_port" == "type") = false := by decide
    have e6 : ("server_port" == "server") = false := by decide
    simp [hasRequiredKeys, Descriptor.get, List.lookup, e1, e2, e3, e4, e5, e6, htag, hserver,
      typeName_ne_empty, hport]

/-- A node returned by the parser carries a descriptor with the required keys. -/
theorem ParseNode_node_wellformed (D : Deps) (uri : String) (skip : List FilterRule)
    (node : ParsedNode) (h : ParseNode D uri skip = .ok (some node)) :
    node.Tag ≠ "" ∧ node.Server ≠ "" ∧ 0 < node.Port ∧
      ∃ d, node.Outbound = some d ∧ hasRequiredKeys d = true := by
  obtain ⟨prov, d, hb, _, hg, hn⟩ := ParseNode_some D uri skip node h
  obtain ⟨_, _, hs, hp, hname⟩ := buildNode_ok D uri prov hb
  have htag : slugify prov.DisplayName ≠ "" := slugify_ne_empty _ hname
  subst hn
  exact ⟨htag, hs, hp, d, rfl, generateOutbound_keys D _ d hg htag hs hp⟩

theorem processLink_cases_full (D : Deps) (skip : List FilterRule) (ordinal total : Nat)
    (st : ProcessState) (raw : String) :
    processLink D skip ordinal total st raw = st ∨
      ∃ node tag ledger1 d, ParseNode D (TrimSpace raw) skip = .ok (some node) ∧
        allocate st.ledger node.Tag ordinal total = some (tag, ledger1) ∧
        generateOutbound D { node with Tag := tag, Outbound := none } = .ok d ∧
        processLink D skip ordinal total st raw =
          { nodes := st.nodes ++ [{ node with Tag := tag, Outbound := some d }],
            ledger := ledger1 } := by
  unfold processLink
  by_cases hb : TrimSpace raw = ""
  · left; simp [hb]
  · simp only [hb, if_false]
    cases hp : ParseNode D (TrimSpace raw) skip with
    | error e => left; rfl
    | ok r =>
      cases r with
      | none => left; rfl
      | some node =>
        dsimp only
        cases ha : allocate st.ledger node.Tag ordinal total with
        | none => left; rfl
        | some r1 =>
          obtain ⟨tag, ledger1⟩ := r1
          dsimp only
          cases hg : generateOutbound D { node with Tag := tag, Outbound := none } with
          | error e => left; rfl
          | ok d =>
            right
            exact ⟨node, tag, ledger1, d, rfl, ha, hg, rfl⟩

theorem foldl_processLink_wellformed (D : Deps) (skip : List FilterRule) (ordinal total : Nat)
    (links : List String) :
    ∀ st : ProcessState,
      (∀ n ∈ st.nodes, ∃ d, n.Outbound = some d ∧ hasRequiredKeys d = true) →
      ∀ n ∈ (links.foldl (processLink D skip ordinal total) st).nodes,
        ∃ d, n.Outbound = some d ∧ hasRequiredKeys d = true := by
  induction links with
  | nil => intro st h; simpa using h
  | cons l ls ih =>
    intro st h
    rw [List.foldl_cons]
    apply ih
    rcases processLink_cases_full D skip ordinal total st l with h1 | ⟨node, tag, l1, d, hp, ha, hg, h1⟩
    · rw [h1]; exact h
    · rw [h1]
      intro n hn
      rcases List.mem_append.mp hn with h2 | h2
      · exact h n h2
      · rw [List.mem_singleton] at h2
        subst h2
        obtain ⟨ht, hs, hport, _⟩ := ParseNode_node_wellformed D _ skip node hp
        exact ⟨d, rfl, generateOutbound_keys D _ d hg
          (allocate_tag_ne_empty _ _ _ _ _ _ ht ha) hs hport⟩

/-- C4: every node that ParseNode or ProcessProxySource returns carries an Outbound descriptor
with a non-empty tag, a non-empty type, a non-empty server and a positive server_port. -/
theorem returned_nodes_have_outbound (D : Deps) :
    (∀ (uri : String) (skipFilters : List FilterRule) (node : ParsedNode),
      ParseNode D uri skipFilters = .ok (some node) →
      ∃ d, node.Outbound = some d ∧ hasRequiredKeys d = true) ∧
    (∀ (source : ProxySource) (tagCounts : TagLedger) (defaultSkip : List FilterRule)
      (ordinal total : Nat) (nodes : List ParsedNode) (ledger : TagLedger),
      ProcessProxySource D source tagCounts defaultSkip ordinal total = .ok (nodes, ledger) →
      ∀ node ∈ nodes, ∃ d, node.Outbound = some d ∧ hasRequiredKeys d = true) := by
  constructor
  · intro uri skip node h
    exact (ParseNode_node_wellformed D uri skip node h).2.2.2
  · intro source tagCounts defaultSkip ordinal total nodes ledger h
    unfold ProcessProxySource at h
    cases hl : sourceLinks D source with
    | error e => simp [hl] at h
    | ok links =>
      simp only [hl, Except.ok.injEq, Prod.mk.injEq] at h
      rw [← h.1]
      exact foldl_processLink_wellformed D _ ordinal total links _ (by simp)

theorem anyMatch_germany (D : Deps) (prov : ParsedNode) (htag : prov.Tag = "") :
    anyMatch D prov [⟨"tag", "/Germany/i"⟩] = D.reMatch true "Germany" prov.DisplayName := by
  have hp : parsePattern "/Germany/i" = .regex "Germany" true := by decide
  simp [anyMatch, ruleMatches, fieldValue, htag, matchesPattern, hp]

/-- C3: with the skip filter set [{"tag": "/Germany/i"}], and an expression matcher that finds the
word Germany in any letter case, every valid link whose display name contains "Germany" in any
letter case is skipped (nil node, no error), and every other valid link yields a node. -/
theorem germany_filter_skips_exactly (D : Deps)
    (hre : ∀ value, D.reMatch true "Germany" value = Contains (foldCase value) "germany")
    (links : List String) (hvalid : ∀ l ∈ links, validLink D l = true) :
    ∀ l ∈ links, ∃ name, displayNameOfLink D l = some name ∧
      (ParseNode D l [⟨"tag", "/Germany/i"⟩] = .ok none ↔
        Contains (foldCase name) "germany" = true) ∧
      ((∃ node, ParseNode D l [⟨"tag", "/Germany/i"⟩] = .ok (some node)) ↔
        Contains (foldCase name) "germany" = false) := by
  intro l hl
  obtain ⟨prov, extra, hb, ht⟩ := (validLink_iff D l).mp (hvalid l hl)
  obtain ⟨htag, _⟩ := buildNode_ok D l prov hb
  have hm := anyMatch_germany D prov htag
  rw [hre] at hm
  obtain ⟨h1, h2⟩ := ParseNode_of_valid D l [⟨"tag", "/Germany/i"⟩] prov extra hb ht
  refine ⟨prov.DisplayName, by simp [displayNameOfLink, hb], ?_, ?_⟩
  · constructor
    · intro hp
      by_contra hc
      have hf : anyMatch D prov [⟨"tag", "/Germany/i"⟩] = false := by
        rw [hm]; simpa using hc
      obtain ⟨node, hn, _⟩ := h2 hf
      rw [hp] at hn
      simp at hn
    · intro hc
      exact h1 (by rw [hm]; exact hc)
  · constructor
    · rintro ⟨node, hn⟩
      by_contra hc
      have ht1 : anyMatch D prov [⟨"tag", "/Germany/i"⟩] = true := by
        rw [hm]; simpa using hc
      rw [h1 ht1] at hn
      simp at hn
    · intro hc
      obtain ⟨node, hn, _⟩ := h2 (by rw [hm]; exact hc)
      exact ⟨node, hn⟩

theorem germany_filter_skips_exactly_witness :
    ParseNode sampleDeps
      "vless://2ee2a715-d541-416a-8713-d66567448c2e@91.98.155.240:443?encryption=none&security=none&type=grpc#🇩🇪 Germany [black lists]"
      [⟨"tag", "/Germany/i"⟩] = .ok none ∧
    ∃ node, ParseNode sampleDeps
      "vless://53fff6cc-b4ec-43e8-ade5-e0c42972fc33@152.53.227.159:80?encryption=none&security=none&type=ws&host=cdn.ir&path=%2Fnews#🇦🇹 Austria [black lists]"
      [⟨"tag", "/Germany/i"⟩] = .ok (some node) := by
  have h := germany_filter_skips_exactly sampleDeps (fun _ => rfl)
    ["vless://2ee2a715-d541-416a-8713-d66567448c2e@91.98.155.240:443?encryption=none&security=none&type=grpc#🇩🇪 Germany [black lists]",
     "vless://53fff6cc-b4ec-43e8-ade5-e0c42972fc33@152.53.227.159:80?encryption=none&security=none&type=ws&host=cdn.ir&path=%2Fnews#🇦🇹 Austria [black lists]"]
    (by decide)
  obtain ⟨n1, hn1, h1, _⟩ := h _ (List.mem_cons_self _ _)
  obtain ⟨n2, hn2, _, h2⟩ := h _ (List.mem_cons_of_mem _ (List.mem_cons_self _ _))
  have e1 : n1 = "🇩🇪 Germany [black lists]" := (Option.some.inj hn1).symm
  have e2 : n2 = "🇦🇹 Austria [black lists]" := (Option.some.inj hn2).symm
  subst e1 e2
  exact ⟨h1.mpr (by decide), h2.mpr (by decide)⟩

/-! ### Base64 -/

theorem url_value_symbol : ∀ v, v < 64 → valueOf urlAlphabet (symbolOf urlAlphabet v) = some v := by
  decide

theorem url_symbol_ne_pad : ∀ v, v < 64 → symbolOf urlAlphabet v ≠ padByte := by
  decide

theorem std_value_url_symbol : ∀ v, v < 64 →
    valueOf stdAlphabet (symbolOf urlAlphabet v) = if v < 62 then some v else none := by
  decide
/-- One full group of four symbols decodes to three bytes followed by the decoding of the rest. -/
theorem decodeBase64_group (alphabet : List Nat) (c0 c1 c2 c3 v0 v1 v2 v3 : Nat)
    (rest : List Nat) (h0 : valueOf alphabet c0 = some v0) (h1 : valueOf alphabet c1 = some v1)
    (h2 : valueOf alphabet c2 = some v2) (h3 : valueOf alphabet c3 = some v3)
    (p2 : c2 ≠ padByte) (p3 : c3 ≠ padByte) :
    decodeBase64 alphabet (c0 :: c1 :: c2 :: c3 :: rest) =
      (decodeBase64 alphabet rest).map (fun tail =>
        (v0 * 4 + v1 / 16) :: (v1 % 16 * 16 + v2 / 4) :: (v2 % 4 * 64 + v3) :: tail) := by
  rw [decodeBase64]
  simp only [h0, h1, h2, h3, p2, p3, if_false]

theorem decodeBase64_group_none (alphabet : List Nat) (c0 c1 c2 c3 : Nat) (rest : List Nat)
    (p2 : c2 ≠ padByte) (p3 : c3 ≠ padByte)
    (h : valueOf alphabet c0 = none ∨ valueOf alphabet c1 = none ∨ valueOf alphabet c2 = none ∨
      valueOf alphabet c3 = none) :
    decodeBase64 alphabet (c0 :: c1 :: c2 :: c3 :: rest) = none := by
  rw [decodeBase64]
  cases h0 : valueOf alphabet c0 with
  | none => simp
  | some v0 =>
    cases h1 : valueOf alphabet c1 with
    | none => simp
    | some v1 =>
      simp only [p2, if_false]
      cases h2 : valueOf alphabet c2 with
      | none => simp
      | some v2 =>
        simp only [p3, if_false]
        cases h3 : valueOf alphabet c3 with
        | none => simp
        | some v3 => simp [h0, h1, h2, h3] at h

theorem decode_encode_url : ∀ (n : Nat) (content : List Nat), content.length ≤ n →
    (∀ b ∈ content, b < 256) →
    decodeBase64 urlAlphabet (encodeBase64 urlAlphabet content) = some content := by
  intro n
  induction n using Nat.strong_induction_on with
  | _ n ih =>
    intro content hlen hb
    match content, hlen, hb with
    | [], _, _ => simp [encodeBase64, decodeBase64]
    | [a], _, hb =>
      have ha : a < 256 := hb a (by simp)
      rw [encodeBase64, decodeBase64]
      simp only [url_value_symbol _ (show a / 4 < 64 by omega),
        url_value_symbol _ (show a % 4 * 16 < 64 by omega)]
      simp
      omega
    | [a, b], _, hb =>
      have ha : a < 256 := hb a (by simp)
      have hb1 : b < 256 := hb b (by simp)
      rw [encodeBase64, decodeBase64]
      simp only [url_value_symbol _ (show a / 4 < 64 by omega),
        url_value_symbol _ (show a % 4 * 16 + b / 16 < 64 by omega),
        url_value_symbol _ (show b % 16 * 4 < 64 by omega),
        url_symbol_ne_pad _ (show b % 16 * 4 < 64 by omega), if_false]
      simp
      omega
    | a :: b :: c :: rest, hlen, hb =>
      have ha : a < 256 := hb a (by simp)
      have hb1 : b < 256 := hb b (by simp)
      have hc : c < 256 := hb c (by simp)
      rw [encodeBase64]
      rw [decodeBase64_group urlAlphabet _ _ _ _ _ _ _ _ _
        (url_value_symbol _ (show a / 4 < 64 by omega))
        (url_value_symbol _ (show a % 4 * 16 + b / 16 < 64 by omega))
        (url_value_symbol _ (show b % 16 * 4 + c / 64 < 64 by omega))
        (url_value_symbol _ (show c % 64 < 64 by omega))
        (url_symbol_ne_pad _ (show b % 16 * 4 + c / 64 < 64 by omega))
        (url_symbol_ne_pad _ (show c % 64 < 64 by omega))]
      simp only [List.length_cons] at hlen
      rw [ih (n - 3) (by omega) rest (by omega) (fun x hx => hb x (by simp [hx]))]
      simp only [Option.map_some', Option.some.injEq, List.cons.injEq, and_true]
      refine ⟨by omega, by omega, by omega⟩

theorem decode_std_encode_url : ∀ (n : Nat) (content : List Nat), content.length ≤ n →
    (∀ b ∈ content, b < 256) → ∀ decoded,
    decodeBase64 stdAlphabet (encodeBase64 urlAlphabet content) = some decoded →
    decoded = content := by
  intro n
  induction n using Nat.strong_induction_on with
  | _ n ih =>
    intro content hlen hb decoded hd
    match content, hlen, hb with
    | [], _, _ => simpa [encodeBase64, decodeBase64] using hd.symm
    | [a], _, hb =>
      have ha : a < 256 := hb a (by simp)
      rw [encodeBase64, decodeBase64] at hd
      simp only [std_value_url_symbol _ (show a / 4 < 64 by omega),
        std_value_url_symbol _ (show a % 4 * 16 < 64 by omega)] at hd
      split_ifs at hd
      simp at hd
      rw [← hd]
      simp
      omega
    | [a, b], _, hb =>
      have ha : a < 256 := hb a (by simp)
      have hb1 : b < 256 := hb b (by simp)
      rw [encodeBase64, decodeBase64] at hd
      simp only [std_value_url_symbol _ (show a / 4 < 64 by omega),
        std_value_url_symbol _ (show a % 4 * 16 + b / 16 < 64 by omega),
        std_value_url_symbol _ (show b % 16 * 4 < 64 by omega),
        url_symbol_ne_pad _ (show b % 16 * 4 < 64 by omega), if_false] at hd
      split_ifs at hd
      simp at hd
      rw [← hd]
      simp
      omega
    | a :: b :: c :: rest, hlen, hb =>
      have ha : a < 256 := hb a (by simp)
      have hb1 : b < 256 := hb b (by simp)
      have hc : c < 256 := hb c (by simp)
      rw [encodeBase64] at hd
      have p2 := url_symbol_ne_pad _ (show b % 16 * 4 + c / 64 < 64 by omega)
      have p3 := url_symbol_ne_pad _ (show c % 64 < 64 by omega)
      have e0 := std_value_url_symbol _ (show a / 4 < 64 by omega)
      have e1 := std_value_url_symbol _ (show a % 4 * 16 + b / 16 < 64 by omega)
      have e2 := std_value_url_symbol _ (show b % 16 * 4 + c / 64 < 64 by omega)
      have e3 := std_value_url_symbol _ (show c % 64 < 64 by omega)
      by_cases hall : a / 4 < 62 ∧ a % 4 * 16 + b / 16 < 62 ∧ b % 16 * 4 + c / 64 < 62 ∧
          c % 64 < 62
      · obtain ⟨q0, q1, q2, q3⟩ := hall
        simp only [q0, q1, q2, q3, if_true] at e0 e1 e2 e3
        rw [decodeBase64_group stdAlphabet _ _ _ _ _ _ _ _ _ e0 e1 e2 e3 p2 p3] at hd
        simp only [List.length_cons] at hlen
        cases hr : decodeBase64 stdAlphabet (encodeBase64 urlAlphabet rest) with
        | none => simp [hr] at hd
        | some tail =>
          have := ih (n - 3) (by omega) rest (by omega) (fun x hx => hb x (by simp [hx])) tail hr
          subst this
          simp only [hr, Option.map_some', Option.some.injEq] at hd
          rw [← hd]
          simp only [List.cons.injEq, and_true]
          refine ⟨by omega, by omega, by omega⟩
      · have hn : valueOf stdAlphabet (symbolOf urlAlphabet (a / 4)) = none ∨
            valueOf stdAlphabet (symbolOf urlAlphabet (a % 4 * 16 + b / 16)) = none ∨
            valueOf stdAlphabet (symbolOf urlAlphabet (b % 16 * 4 + c / 64)) = none ∨
            valueOf stdAlphabet (symbolOf urlAlphabet (c % 64)) = none := by
          rw [e0, e1, e2, e3]
          by_contra hcon
          simp only [not_or] at hcon
          apply hall
          refine ⟨?_, ?_, ?_, ?_⟩ <;> by_contra hh <;> simp [hh] at hcon
        rw [decodeBase64_group_none stdAlphabet _ _ _ _ _ p2 p3 hn] at hd
        simp at hd

theorem valueOf_mem (alphabet : List Nat) (c v : Nat) (h : valueOf alphabet c = some v) :
    c ∈ alphabet := by
  unfold valueOf at h
  split_ifs at h with hlt
  exact List.indexOf_lt_length.mp hlt

/-- Every byte of a content that decodes is a symbol of the alphabet or the padding byte. -/
theorem decodeBase64_bytes (alphabet : List Nat) : ∀ (n : Nat) (content : List Nat),
    content.length ≤ n → ∀ decoded, decodeBase64 alphabet content = some decoded →
    ∀ b ∈ content, b ∈ alphabet ∨ b = padByte := by
  intro n
  induction n using Nat.strong_induction_on with
  | _ n ih =>
    intro content hlen decoded hd b hb
    match content, hlen, hb with
    | [], _, hb => simp at hb
    | [_], _, _ => simp [decodeBase64] at hd
    | [_, _], _, _ => simp [decodeBase64] at hd
    | [_, _, _], _, _ => simp [decodeBase64] at hd
    | c0 :: c1 :: c2 :: c3 :: rest, hlen, hb =>
      rw [decodeBase64] at hd
      cases h0 : valueOf alphabet c0 with
      | none => simp [h0] at hd
      | some v0 =>
        cases h1 : valueOf alphabet c1 with
        | none => simp [h0, h1] at hd
        | some v1 =>
          simp only [h0, h1] at hd
          have m0 := valueOf_mem _ _ _ h0
          have m1 := valueOf_mem _ _ _ h1
          by_cases p2 : c2 = padByte
          · simp only [p2, if_true] at hd
            split_ifs at hd with hc
            obtain ⟨p3, hr⟩ := hc
            subst hr
            simp only [List.mem_cons, List.mem_nil_iff, or_false] at hb
            rcases hb with rfl | rfl | rfl | rfl
            · exact Or.inl m0
            · exact Or.inl m1
            · exact Or.inr p2
            · exact Or.inr p3
          · simp only [p2, if_false] at hd
            cases h2 : valueOf alphabet c2 with
            | none => simp [h2] at hd
            | some v2 =>
              simp only [h2] at hd
              have m2 := valueOf_mem _ _ _ h2
              by_cases p3 : c3 = padByte
              · simp only [p3, if_true] at hd
                split_ifs at hd with hr
                subst hr
                simp only [List.mem_cons, List.mem_nil_iff, or_false] at hb
                rcases hb with rfl | rfl | rfl | rfl
                · exact Or.inl m0
                · exact Or.inl m1
                · exact Or.inl m2
                · exact Or.inr p3
              · simp only [p3, if_false] at hd
                cases h3 : valueOf alphabet c3 with
                | none => simp [h3] at hd
                | some v3 =>
                  simp only [h3] at hd
                  have m3 := valueOf_mem _ _ _ h3
                  cases hr : decodeBase64 alphabet rest with
                  | none => simp [hr] at hd
                  | some tail =>
                    simp only [List.length_cons] at hlen
                    simp only [List.mem_cons] at hb
                    rcases hb with rfl | rfl | rfl | rfl | hb
                    · exact Or.inl m0
                    · exact Or.inl m1
                    · exact Or.inl m2
                    · exact Or.inl m3
                    · exact ih (n - 4) (by omega) rest (by omega) tail hr b hb

theorem decodeBase64_none_of_foreign (alphabet : List Nat) (content : List Nat) (b : Nat)
    (hb : b ∈ content) (h1 : b ∉ alphabet) (h2 : b ≠ padByte) :
    decodeBase64 alphabet content = none := by
  cases hd : decodeBase64 alphabet content with
  | none => rfl
  | some decoded =>
    rcases decodeBase64_bytes alphabet _ content (le_refl _) decoded hd b hb with h | h
    · exact absurd h h1
    · exact absurd h h2

theorem DecodeString_none_of_foreign (alphabet : List Nat) (content : List Nat) (b : Nat)
    (hb : b ∈ content) (h1 : b ∉ alphabet) (h2 : b ≠ padByte) (h3 : b ≠ 10) (h4 : b ≠ 13) :
    DecodeString alphabet content = none := by
  unfold DecodeString
  apply decodeBase64_none_of_foreign alphabet _ b _ h1 h2
  simp [stripNewlines, hb, h3, h4]

theorem newlines_not_symbols : (10 : Nat) ∉ urlAlphabet ∧ (13 : Nat) ∉ urlAlphabet ∧
    (10 : Nat) ≠ padByte ∧ (13 : Nat) ≠ padByte := by
  decide

/-- The URL-safe encoding of a byte content has no newline bytes. -/
theorem stripNewlines_encoded (content : List Nat) (hb : ∀ b ∈ content, b < 256) :
    stripNewlines (encodeBase64 urlAlphabet content) = encodeBase64 urlAlphabet content := by
  unfold stripNewlines
  rw [List.filter_eq_self]
  intro b hmem
  have hsym := decodeBase64_bytes urlAlphabet _ _ (le_refl _) content
    (decode_encode_url _ content (le_refl _) hb) b hmem
  have hn := newlines_not_symbols
  have h10 : b ≠ 10 := by
    rintro rfl
    rcases hsym with h | h
    · exact hn.1 h
    · exact hn.2.2.1 h
  have h13 : b ≠ 13 := by
    rintro rfl
    rcases hsym with h | h
    · exact hn.2.1 h
    · exact hn.2.2.2 h
  simp [h10, h13]

/-- Decoding undoes the URL-safe encoding, whichever alphabet the decoder tries first. -/
theorem DecodeSubscriptionContent_encoded (content : List Nat) (hb : ∀ b ∈ content, b < 256) :
    DecodeSubscriptionContent (URLEncodeToString content) = .ok content := by
  unfold DecodeSubscriptionContent URLEncodeToString DecodeString
  rw [stripNewlines_encoded content hb]
  cases hs : decodeBase64 stdAlphabet (encodeBase64 urlAlphabet content) with
  | some decoded =>
    rw [decode_std_encode_url _ content (le_refl _) hb decoded hs]
  | none =>
    simp only [decode_encode_url _ content (le_refl _) hb]

theorem DecodeSubscriptionContent_plain (content : List Nat)
    (h : isValidBase64 content = false) : DecodeSubscriptionContent content = .ok content := by
  unfold isValidBase64 at h
  unfold DecodeSubscriptionContent
  cases h1 : DecodeString stdAlphabet content with
  | some d => simp [h1] at h
  | none =>
    cases h2 : DecodeString urlAlphabet content with
    | some d => simp [h1, h2] at h
    | none => rfl

theorem splitBytes_ne_nil (sep : Nat) (content : List Nat) : splitBytes sep content ≠ [] := by
  cases content with
  | nil => simp [splitBytes]
  | cons b bs =>
    unfold splitBytes
    split_ifs
    · simp
    · split <;> simp

theorem splitBytes_head_prefix (sep : Nat) : ∀ (content piece : List Nat)
    (rest : List (List Nat)), splitBytes sep content = piece :: rest → piece <+: content := by
  intro content
  induction content with
  | nil =>
    intro piece rest h
    simp only [splitBytes, List.cons.injEq] at h
    rw [← h.1]
  | cons b bs ih =>
    intro piece rest h
    unfold splitBytes at h
    by_cases hb : b = sep
    · simp only [hb, if_true, List.cons.injEq] at h
      rw [← h.1]; exact List.nil_prefix
    · simp only [hb, if_false] at h
      cases hs : splitBytes sep bs with
      | nil => exact absurd hs (splitBytes_ne_nil sep bs)
      | cons p r =>
        simp only [hs, List.cons.injEq] at h
        rw [← h.1]
        exact List.cons_prefix_cons.mpr ⟨rfl, ih p r hs⟩

theorem splitBytes_infix (sep : Nat) (content : List Nat) :
    ∀ line ∈ splitBytes sep content, line <:+: content := by
  induction content with
  | nil =>
    intro line h
    simp only [splitBytes, List.mem_singleton] at h
    subst h; exact List.infix_refl _
  | cons b bs ih =>
    intro line h
    unfold splitBytes at h
    by_cases hb : b = sep
    · simp only [hb, if_true, List.mem_cons] at h
      rcases h with h | h
      · subst h; exact List.nil_infix
      · exact (ih line h).trans (List.infix_cons (List.infix_refl _))
    · simp only [hb, if_false] at h
      cases hs : splitBytes sep bs with
      | nil => exact absurd hs (splitBytes_ne_nil sep bs)
      | cons piece rest =>
        simp only [hs, List.mem_cons] at h
        rcases h with h | h
        · subst h
          exact (List.cons_prefix_cons.mpr
            ⟨rfl, splitBytes_head_prefix sep bs piece rest hs⟩).isInfix
        · have : line ∈ splitBytes sep bs := by rw [hs]; exact List.mem_cons_of_mem _ h
          exact (ih line this).trans (List.infix_cons (List.infix_refl _))

theorem colon_is_foreign : (58 : Nat) ∉ stdAlphabet ∧ (58 : Nat) ∉ urlAlphabet ∧
    (58 : Nat) ≠ padByte := by
  decide

/-- C5: decoding undoes base64 encoding. For every subscription text c, DecodeSubscriptionContent
applied to the URL-safe base64 encoding of c succeeds and returns c, so every line of c is present
in the decoded content; and when c is a text of proxy links (it has a colon), the base64 form and
the plain-text form decode to the same content and yield the same parsed nodes. -/
theorem decode_undoes_urlsafe_encoding (content : List Nat) (hbytes : ∀ b ∈ content, b < 256) :
    DecodeSubscriptionContent (URLEncodeToString content) = .ok content ∧
    (∃ decoded, DecodeSubscriptionContent (URLEncodeToString content) = .ok decoded ∧
      ∀ line ∈ splitBytes 10 content, line <:+: decoded) ∧
    (58 ∈ content →
      DecodeSubscriptionContent (URLEncodeToString content) = DecodeSubscriptionContent content ∧
      ∀ D : Deps, subscriptionNodes D (URLEncodeToString content) = subscriptionNodes D content) := by
  have henc := DecodeSubscriptionContent_encoded content hbytes
  refine ⟨henc, ⟨content, henc, splitBytes_infix 10 content⟩, ?_⟩
  intro hcolon
  have hplain : DecodeSubscriptionContent content = .ok content := by
    apply DecodeSubscriptionContent_plain
    simp [isValidBase64,
      DecodeString_none_of_foreign stdAlphabet content 58 hcolon colon_is_foreign.1
        colon_is_foreign.2.2,
      DecodeString_none_of_foreign urlAlphabet content 58 hcolon colon_is_foreign.2.1
        colon_is_foreign.2.2]
  refine ⟨by rw [henc, hplain], fun D => ?_⟩
  simp only [subscriptionNodes, henc, hplain]

/-- C6: an input that is not valid base64, in particular any input with a byte that is neither a
symbol of the standard or the URL-safe alphabet nor padding nor a newline byte (such as the colon
of a link line), is returned unchanged and without error; the decoder returns no error on any
input. -/
theorem decode_falls_back_to_plain_text (content : List Nat) :
    (isValidBase64 content = false → DecodeSubscriptionContent content = .ok content) ∧
    (∀ b ∈ content, b ∉ stdAlphabet → b ∉ urlAlphabet → b ≠ padByte → b ≠ 10 → b ≠ 13 →
      isValidBase64 content = false ∧ DecodeSubscriptionContent content = .ok content) ∧
    (∃ decoded, DecodeSubscriptionContent content = .ok decoded) := by
  refine ⟨DecodeSubscriptionContent_plain content, ?_, ?_⟩
  · intro b hb h1 h2 h3 h4 h5
    have hv : isValidBase64 content = false := by
      simp [isValidBase64, DecodeString_none_of_foreign stdAlphabet content b hb h1 h3 h4 h5,
        DecodeString_none_of_foreign urlAlphabet content b hb h2 h3 h4 h5]
    exact ⟨hv, DecodeSubscriptionContent_plain content hv⟩
  · unfold DecodeSubscriptionContent
    cases DecodeString stdAlphabet content with
    | some d => exact ⟨d, rfl⟩
    | none =>
      cases DecodeString urlAlphabet content with
      | some d => exact ⟨d, rfl⟩
      | none => exact ⟨content, rfl⟩

/-! ### Config normalizer -/

/-- C7 (as amended): the non-strict call NormalizeParserConfig(cfg, false) never fails, for every
ParserConfig. For every ParserConfig whose version is below ParserConfigVersion the nested version
afterwards equals ParserConfigVersion; a document that is not below it keeps its versions. For
every ParserConfig, parser.reload afterwards equals "4h" when it was absent (empty), and a reload
interval that was given is kept. -/
theorem normalize_nonstrict (current : Int) (unmigratable : ParserConfig → Bool)
    (cfg : ParserConfig) :
    ∃ out, NormalizeParserConfig current unmigratable cfg false = .ok out ∧
      (schemaVersion cfg < current → out.ParserConfig.Version = current) ∧
      (¬ schemaVersion cfg < current →
        out.ParserConfig.Version = cfg.ParserConfig.Version ∧ out.Version = cfg.Version) ∧
      (cfg.ParserConfig.Parser.Reload = "" → out.ParserConfig.Parser.Reload = "4h") ∧
      (cfg.ParserConfig.Parser.Reload ≠ "" →
        out.ParserConfig.Parser.Reload = cfg.ParserConfig.Parser.Reload) := by
  refine ⟨fillDefaults (upgradeToCurrent current cfg), by simp [NormalizeParserConfig],
    ?_, ?_, ?_, ?_⟩
  · intro h
    simp [fillDefaults, upgradeToCurrent, h]
  · intro h
    simp [fillDefaults, upgradeToCurrent, h]
  · intro h
    by_cases hv : schemaVersion cfg < current <;> simp [fillDefaults, upgradeToCurrent, hv, h]
  · intro h
    by_cases hv : schemaVersion cfg < current <;> simp [fillDefaults, upgradeToCurrent, hv, h]

theorem normalize_nonstrict_witness :
    schemaVersion defaultParserConfig < 2 ∧
    ∃ out, NormalizeParserConfig 2 (fun _ => false) defaultParserConfig false = .ok out ∧
      out.ParserConfig.Version = 2 ∧ out.ParserConfig.Parser.Reload = "4h" := by
  have hbelow : schemaVersion defaultParserConfig < 2 := by
    simp [schemaVersion, defaultParserConfig]
  obtain ⟨out, h1, h2, _, h4, _⟩ := normalize_nonstrict 2 (fun _ => false) defaultParserConfig
  exact ⟨hbelow, out, h1, h2 hbelow, h4 (by simp [defaultParserConfig])⟩

/-- C7 (as stated) fails on a document above the current version: with 2 as the current schema
version, the document of the integration test raised to the nested version 3 is not below it, so
the non-strict call leaves it at 3, which is not the current version. -/
theorem normalize_keeps_newer_version :
    normalizedVersion 2 (fun _ => false)
        { testParserConfig [] with
          ParserConfig := { (testParserConfig []).ParserConfig with Version := 3 } } false =
      some 3 ∧
    (3 : Int) ≠ 2 := by
  constructor
  · simp [normalizedVersion, NormalizeParserConfig, fillDefaults, upgradeToCurrent,
      schemaVersion, testParserConfig]
  · decide

/-- The expectation of the integration test holds for every current schema version from 2 on:
its document, of nested version 2, ends at the current version with the reload interval `4h`. -/
theorem normalize_test_document (current : Int) (h : 2 ≤ current)
    (unmigratable : ParserConfig → Bool) (links : List String) :
    ∃ out, NormalizeParserConfig current unmigratable (testParserConfig links) false = .ok out ∧
      out.ParserConfig.Version = current ∧ out.ParserConfig.Parser.Reload = "4h" := by
  refine ⟨fillDefaults (upgradeToCurrent current (testParserConfig links)),
    by simp [NormalizeParserConfig], ?_, ?_⟩
  · by_cases hv : schemaVersion (testParserConfig links) < current
    · simp [fillDefaults, upgradeToCurrent, hv]
    · have h2 : current = 2 := by
        simp [schemaVersion, testParserConfig] at hv
        omega
      simp [fillDefaults, upgradeToCurrent, hv, h2, testParserConfig]
  · have hr : (upgradeToCurrent current (testParserConfig links)).ParserConfig.Parser.Reload
        = "" := by
      unfold upgradeToCurrent
      split <;> rfl
    simp [fillDefaults, hr]

/-! ### Link loop of the wizard -/

/-- C10: per-link failures and skips are local. For every subscription text and every parser, the
node list built by the link loop of parseAndPreview is, in line order, the nodes the parser
returns without error for the trimmed non-blank lines; a line whose parse returns an error or a
(nil, nil) skip contributes nothing and the loop goes on with the later lines. -/
theorem parseAndPreview_nodes_eq (parse : LinkParser) (proxies : List ProxySource)
    (content : String) :
    parseAndPreview_nodes parse proxies content =
      (SplitLines content).filterMap (fun line =>
        if TrimSpace line = "" then none
        else
          match parse (TrimSpace line) (wizardSkipFilters proxies) with
          | (some node, none) => some node
          | _ => none) := by
  unfold parseAndPreview_nodes
  rw [foldl_step_eq]
  rfl

/-! ### Evaluations on concrete inputs -/

theorem ParseNode_skip_only_on_match_witness :
    (∃ node, ParseNode sampleDeps "vless://uuid@host:443?encryption=none&security=none#Test" [] =
      .ok (some node)) ∧
    ∃ nodes ledger,
      ProcessProxySource sampleDeps
        { Source := "",
          Connections := ["vless://uuid@host:443?encryption=none&security=none#Test",
            " trojan://secret@example.org:8443#Test "],
          Skip := [] } [] [] 0 1 = .ok (nodes, ledger) ∧
      nodes.length =
        ["vless://uuid@host:443?encryption=none&security=none#Test",
          " trojan://secret@example.org:8443#Test "].length :=
  ⟨ParseNode_skip_only_on_match.2.1 sampleDeps
      "vless://uuid@host:443?encryption=none&security=none#Test" (by decide),
   ParseNode_skip_only_on_match.2.2 sampleDeps
      ["vless://uuid@host:443?encryption=none&security=none#Test",
        " trojan://secret@example.org:8443#Test "] [] 0 1 (by decide)⟩

theorem returned_nodes_have_outbound_witness :
    ∃ d, (some [("tag", JVal.str "Test"), ("type", JVal.str "vless"),
        ("server", JVal.str "host"), ("server_port", JVal.num 443)] : Option Descriptor) =
      some d ∧ hasRequiredKeys d = true :=
  (returned_nodes_have_outbound sampleDeps).1
    "vless://uuid@host:443?encryption=none&security=none#Test" []
    { Protocol := .vless, Identity := .uuid "uuid", Server := "host", Port := 443,
      TransportOptions := [("encryption", "none"), ("security", "none")],
      DisplayName := "Test", Tag := "Test",
      Outbound := some [("tag", .str "Test"), ("type", .str "vless"), ("server", .str "host"),
        ("server_port", .num 443)] }
    (by rfl)

theorem decode_undoes_urlsafe_encoding_witness :
    DecodeSubscriptionContent
        (URLEncodeToString ("vless://a@b:1#x\nss://c:d@e:2".data.map Char.toNat)) =
      .ok ("vless://a@b:1#x\nss://c:d@e:2".data.map Char.toNat) ∧
    DecodeSubscriptionContent
        (URLEncodeToString ("vless://a@b:1#x\nss://c:d@e:2".data.map Char.toNat)) =
      DecodeSubscriptionContent ("vless://a@b:1#x\nss://c:d@e:2".data.map Char.toNat) :=
  ⟨(decode_undoes_urlsafe_encoding ("vless://a@b:1#x\nss://c:d@e:2".data.map Char.toNat)
      (by decide)).1,
   ((decode_undoes_urlsafe_encoding ("vless://a@b:1#x\nss://c:d@e:2".data.map Char.toNat)
      (by decide)).2.2 (by decide)).1⟩

theorem decode_falls_back_to_plain_text_witness :
    DecodeSubscriptionContent ("vless://a@b:1#x\nss://c:d@e:2".data.map Char.toNat) =
      .ok ("vless://a@b:1#x\nss://c:d@e:2".data.map Char.toNat) :=
  ((decode_falls_back_to_plain_text
      ("vless://a@b:1#x\nss://c:d@e:2".data.map Char.toNat)).2.1 58
    (by decide) (by decide) (by decide) (by decide) (by decide) (by decide)).2

theorem ruleMatches_pattern_forms_witness :
    ruleMatches sampleDeps
        { Protocol := .vless, Identity := .uuid "uuid", Server := "host", Port := 443,
          TransportOptions := [], DisplayName := "Germany", Tag := "", Outbound := none }
        ⟨"tag", "/" ++ "many" ++ "/"⟩ =
      sampleDeps.reMatch false "many" "Germany" ∧
    ruleMatches sampleDeps
        { Protocol := .vless, Identity := .uuid "uuid", Server := "host", Port := 443,
          TransportOptions := [], DisplayName := "Germany", Tag := "", Outbound := none }
        ⟨"label", "/many/"⟩ = false :=
  ⟨(((ruleMatches_pattern_forms sampleDeps
        { Protocol := .vless, Identity := .uuid "uuid", Server := "host", Port := 443,
          TransportOptions := [], DisplayName := "Germany", Tag := "", Outbound := none }
        "tag").1 "Germany" rfl).1 "many").1,
   (ruleMatches_pattern_forms sampleDeps
        { Protocol := .vless, Identity := .uuid "uuid", Server := "host", Port := 443,
          TransportOptions := [], DisplayName := "Germany", Tag := "", Outbound := none }
        "label").2.2 (by decide) "/many/"⟩


/-- The assertions of the integration test on `realWorldLinks` hold for the model: every link is
processed into a node and no tag occurs twice. -/
theorem realWorldLinks_processed :
    ∃ nodes ledger,
      ProcessProxySource sampleDeps { Source := "", Connections := realWorldLinks, Skip := [] }
        [] [] 0 1 = .ok (nodes, ledger) ∧
      nodes.length = realWorldLinks.length ∧
      (nodes.map (fun n => n.Tag)).Nodup ∧
      nodes.all (fun n => n.Outbound.isSome) = true :=
  ⟨_, _, rfl, rfl, by decide, rfl⟩

/-! ### Version comparison -/

theorem isDigit_facts (c : Char) (h : c.isDigit = true) :
    isSpace c = false ∧ c ≠ '\n' ∧ c ≠ '+' ∧ c ≠ '-' := by
  have hv : 48 ≤ c.toNat ∧ c.toNat ≤ 57 := by
    simp only [Char.isDigit, Bool.and_eq_true, decide_eq_true_eq] at h
    exact ⟨h.1, h.2⟩
  refine ⟨?_, ?_, ?_, ?_⟩
  · simp only [isSpace, Bool.or_eq_false_iff, beq_eq_false_iff_ne, ne_eq, Bool.and_eq_false_iff,
      decide_eq_false_iff_not]
    omega
  · rintro rfl; simp at hv
  · rintro rfl; simp at hv
  · rintro rfl; simp at hv

theorem takeWhile_isDigit_of_all (ds : List Char) (h : ds.all Char.isDigit = true) :
    ds.takeWhile Char.isDigit = ds := by
  rw [List.takeWhile_eq_self_iff]
  intro c hc
  exact List.all_eq_true.mp h c hc

/-- A component that is a decimal integer in the 64-bit range is scanned to its value. -/
theorem scanDecimal_of_decimalInteger (part : String) (z : Int)
    (h : decimalInteger part = some z) (hfit : fitsInt64 z = true) :
    scanDecimal part = some z := by
  simp only [fitsInt64, Bool.and_eq_true, decide_eq_true_eq] at hfit
  unfold decimalInteger at h
  unfold scanDecimal
  split at h
  · rename_i ds hd
    split_ifs at h with hc
    obtain ⟨hne, hall⟩ := hc
    simp only [Option.some.injEq] at h
    rw [hd]
    have hs : skipSpaceScanf ('-' :: ds) = some ('-' :: ds) := by
      simp [skipSpaceScanf, isSpace]
    rw [hs]
    have ht := takeWhile_isDigit_of_all ds hall
    simp [ht, hne, parseInt64]
    subst h
    omega
  · rename_i ds hd
    split_ifs at h with hc
    obtain ⟨hne, hall⟩ := hc
    simp only [Option.some.injEq] at h
    rw [hd]
    have hs : skipSpaceScanf ('+' :: ds) = some ('+' :: ds) := by
      simp [skipSpaceScanf, isSpace]
    rw [hs]
    have ht := takeWhile_isDigit_of_all ds hall
    simp [ht, hne, parseInt64]
    subst h
    omega
  · rename_i ds hplus hminus
    split_ifs at h with hc
    obtain ⟨hne, hall⟩ := hc
    simp only [Option.some.injEq] at h
    cases hds : part.data with
    | nil => exact absurd hds hne
    | cons c cs =>
      rw [hds] at hall h
      have hcd : c.isDigit = true := by
        simp only [List.all_cons, Bool.and_eq_true] at hall
        exact hall.1
      obtain ⟨f1, f2, f3, f4⟩ := isDigit_facts c hcd
      have hs : skipSpaceScanf (c :: cs) = some (c :: cs) := by
        simp [skipSpaceScanf, f1, f2]
      rw [hs]
      have ht := takeWhile_isDigit_of_all (c :: cs) hall
      have hb : (c == '-') = false := by simpa using f4
      simp only [f3, f4, or_self, if_false, ht, hb, parseInt64]
      simp
      subst h
      omega

theorem map_sscanfInt_of_decimalIntegers (parts : List String) :
    ∀ zs : List Int, decimalIntegers parts = some zs → (∀ z ∈ zs, fitsInt64 z = true) →
      parts.map sscanfInt = zs := by
  induction parts with
  | nil => intro zs h _; simpa [decimalIntegers] using h
  | cons p ps ih =>
    intro zs h hfit
    unfold decimalIntegers at h
    cases hp : decimalInteger p with
    | none => simp [hp] at h
    | some z =>
      cases hps : decimalIntegers ps with
      | none => simp [hp, hps] at h
      | some rest =>
        simp only [hp, hps, Option.some.injEq] at h
        subst h
        have h1 := scanDecimal_of_decimalInteger p z hp (hfit z (by simp))
        have h2 := ih rest hps (fun w hw => hfit w (by simp [hw]))
        simp [sscanfInt, h1, h2]

theorem scanned_at_index (parts : List String) (i : Nat) :
    (if i < parts.length then sscanfInt (parts.getD i "") else 0) =
      ((parts.map sscanfInt).drop i).headD 0 := by
  by_cases h : i < parts.length
  · have hm : i < (parts.map sscanfInt).length := by simpa using h
    rw [List.drop_eq_getElem_cons hm]
    simp [h, List.getD_eq_getElem _ _ h]
  · have hm : (parts.map sscanfInt).length ≤ i := by simpa using h
    simp [h, List.drop_eq_nil_of_le hm]

theorem comparePadded_headD (xs ys : List Int) (h : xs ≠ [] ∨ ys ≠ []) :
    comparePadded xs ys =
      if xs.headD 0 < ys.headD 0 then -1
      else if xs.headD 0 > ys.headD 0 then 1
      else comparePadded xs.tail ys.tail := by
  cases xs with
  | nil =>
    cases ys with
    | nil => simp at h
    | cons b bs => simp [comparePadded, compareZerosWith]
  | cons a as =>
    cases ys with
    | nil => simp [comparePadded, compareZerosWith]
    | cons b bs => simp [comparePadded, compareZerosWith]

/-- The index loop compares the scanned components from index `i` on. -/
theorem compareVersionsLoop_eq (parts1 parts2 : List String) :
    ∀ (remaining i : Nat), parts1.length ≤ i + remaining → parts2.length ≤ i + remaining →
      compareVersionsLoop parts1 parts2 remaining i =
        comparePadded ((parts1.map sscanfInt).drop i) ((parts2.map sscanfInt).drop i) := by
  intro remaining
  induction remaining with
  | zero =>
    intro i h1 h2
    have e1 : (parts1.map sscanfInt).drop i = [] :=
      List.drop_eq_nil_of_le (by simpa using h1)
    have e2 : (parts2.map sscanfInt).drop i = [] :=
      List.drop_eq_nil_of_le (by simpa using h2)
    simp [compareVersionsLoop, e1, e2, comparePadded, compareZerosWith]
  | succ k ih =>
    intro i h1 h2
    rw [compareVersionsLoop]
    simp only [scanned_at_index]
    rw [ih (i + 1) (by omega) (by omega)]
    by_cases hne : (parts1.map sscanfInt).drop i ≠ [] ∨ (parts2.map sscanfInt).drop i ≠ []
    · rw [comparePadded_headD _ _ hne]
      simp [List.tail_drop]
    · simp only [not_or, not_not] at hne
      have e1 : (parts1.map sscanfInt).drop (i + 1) = [] := by
        have := hne.1
        rw [List.drop_eq_nil_iff] at this ⊢
        omega
      have e2 : (parts2.map sscanfInt).drop (i + 1) = [] := by
        have := hne.2
        rw [List.drop_eq_nil_iff] at this ⊢
        omega
      simp [hne.1, hne.2, e1, e2, comparePadded, compareZerosWith]

theorem compareVersions_eq_comparePadded (v1 v2 : String) :
    compareVersions v1 v2 =
      comparePadded ((SplitDots v1).map sscanfInt) ((SplitDots v2).map sscanfInt) := by
  unfold compareVersions
  simp only
  have := compareVersionsLoop_eq (SplitDots v1) (SplitDots v2)
    (if (SplitDots v2).length > (SplitDots v1).length then (SplitDots v2).length
      else (SplitDots v1).length) 0
    (by split_ifs <;> omega) (by split_ifs <;> omega)
  simpa using this

theorem comparePadded_snoc_zero_left (xs : List Int) :
    ∀ ys : List Int, comparePadded (xs ++ [0]) ys = comparePadded xs ys := by
  induction xs with
  | nil =>
    intro ys
    cases ys with
    | nil => simp [comparePadded, compareZerosWith]
    | cons b bs => simp [comparePadded, compareZerosWith]
  | cons a as ih =>
    intro ys
    cases ys with
    | nil => simp [comparePadded, compareZerosWith, ih]
    | cons b bs => simp [comparePadded, compareZerosWith, ih]

theorem comparePadded_snoc_zero_right (ys : List Int) :
    ∀ xs : List Int, comparePadded xs (ys ++ [0]) = comparePadded xs ys := by
  induction ys with
  | nil =>
    intro xs
    cases xs with
    | nil => simp [comparePadded, compareZerosWith]
    | cons a as => simp [comparePadded, compareZerosWith]
  | cons b bs ih =>
    intro xs
    cases xs with
    | nil =>
      have h0 := ih []
      simp only [comparePadded] at h0
      simp [comparePadded, compareZerosWith, h0]
    | cons a as => simp [comparePadded, compareZerosWith, ih]

theorem comparePadded_padZeros (n m : Nat) (xs ys : List Int) :
    comparePadded (padZeros n xs) (padZeros m ys) = comparePadded xs ys := by
  have hl : ∀ k : Nat, ∀ zs : List Int,
      comparePadded (xs ++ List.replicate k 0) zs = comparePadded xs zs := by
    intro k
    induction k with
    | zero => intro zs; simp
    | succ k ih =>
      intro zs
      rw [List.replicate_succ', ← List.append_assoc, comparePadded_snoc_zero_left, ih]
  have hr : ∀ k : Nat, ∀ zs : List Int,
      comparePadded zs (ys ++ List.replicate k 0) = comparePadded zs ys := by
    intro k
    induction k with
    | zero => intro zs; simp
    | succ k ih =>
      intro zs
      rw [List.replicate_succ', ← List.append_assoc, comparePadded_snoc_zero_right, ih]
  unfold padZeros
  rw [hl, hr]

/-- On sequences of equal length the padded order is the lexicographic order. -/
theorem comparePadded_lex (xs : List Int) :
    ∀ ys : List Int, xs.length = ys.length →
      (comparePadded xs ys = -1 ↔ List.Lex (fun a b => a < b) xs ys) ∧
      (comparePadded xs ys = 0 ↔ xs = ys) ∧
      (comparePadded xs ys = 1 ↔ List.Lex (fun a b => a < b) ys xs) := by
  induction xs with
  | nil =>
    intro ys h
    cases ys with
    | nil => simp [comparePadded, compareZerosWith]
    | cons b bs => simp at h
  | cons a as ih =>
    intro ys h
    cases ys with
    | nil => simp at h
    | cons b bs =>
      simp only [List.length_cons, Nat.add_right_cancel_iff] at h
      obtain ⟨i1, i2, i3⟩ := ih bs h
      rcases lt_trichotomy a b with hlt | heq | hgt
      · have hne : a ≠ b := ne_of_lt hlt
        have hngt : ¬ b < a := not_lt.mpr (le_of_lt hlt)
        refine ⟨?_, ?_, ?_⟩
        · simp only [comparePadded, hlt, if_true, true_iff]
          exact List.Lex.rel hlt
        · simp [comparePadded, hlt, hne]
        · simp only [comparePadded, hlt, if_true]
          constructor
          · intro hc; simp at hc
          · intro hc
            cases hc with
            | cons h' => exact absurd rfl hne
            | rel h' => exact absurd h' hngt
      · subst heq
        have hirr : ¬ a < a := lt_irrefl a
        refine ⟨?_, ?_, ?_⟩
        · simp only [comparePadded, hirr, if_false, gt_iff_lt]
          rw [i1]
          constructor
          · intro hc; exact List.Lex.cons hc
          · intro hc
            cases hc with
            | cons h' => exact h'
            | rel h' => exact absurd h' hirr
        · simp [comparePadded, hirr, i2]
        · simp only [comparePadded, hirr, if_false, gt_iff_lt]
          rw [i3]
          constructor
          · intro hc; exact List.Lex.cons hc
          · intro hc
            cases hc with
            | cons h' => exact h'
            | rel h' => exact absurd h' hirr
      · have hne : a ≠ b := ne_of_gt hgt
        have hnlt : ¬ a < b := not_lt.mpr (le_of_lt hgt)
        refine ⟨?_, ?_, ?_⟩
        · simp only [comparePadded, hnlt, if_false, gt_iff_lt, hgt, if_true]
          constructor
          · intro hc; simp at hc
          · intro hc
            cases hc with
            | cons h' => exact absurd rfl hne
            | rel h' => exact absurd h' hnlt
        · simp [comparePadded, hnlt, hgt, hne]
        · simp only [comparePadded, hnlt, if_false, gt_iff_lt, hgt, if_true, true_iff]
          exact List.Lex.rel hgt

theorem length_padZeros (n : Nat) (xs : List Int) (h : xs.length ≤ n) :
    (padZeros n xs).length = n := by
  simp [padZeros]
  omega

/-- Within the range of the 64-bit int `compareVersions` does what its docstring says: for all
version strings v1 and v2 whose dot-separated components are decimal integers that fit the int,
compareVersions(v1, v2) is -1, 0 or 1 according to whether the component sequence of v1 is less
than, equal to or greater than that of v2 in lexicographic order, a missing trailing component
counting as 0; so "1.2" and "1.2.0" compare equal. -/
theorem compareVersions_lexicographic (v1 v2 : String) (c1 c2 : List Int)
    (h1 : versionComponents v1 = some c1) (h2 : versionComponents v2 = some c2)
    (hfit1 : ∀ z ∈ c1, fitsInt64 z = true) (hfit2 : ∀ z ∈ c2, fitsInt64 z = true) :
    compareVersions v1 v2 = comparePadded c1 c2 ∧
    (compareVersions v1 v2 = -1 ↔
      List.Lex (fun a b => a < b) (padZeros (max c1.length c2.length) c1)
        (padZeros (max c1.length c2.length) c2)) ∧
    (compareVersions v1 v2 = 0 ↔
      padZeros (max c1.length c2.length) c1 = padZeros (max c1.length c2.length) c2) ∧
    (compareVersions v1 v2 = 1 ↔
      List.Lex (fun a b => a < b) (padZeros (max c1.length c2.length) c2)
        (padZeros (max c1.length c2.length) c1)) ∧
    compareVersions "1.2" "1.2.0" = 0 := by
  have e1 := map_sscanfInt_of_decimalIntegers (SplitDots v1) c1 h1 hfit1
  have e2 := map_sscanfInt_of_decimalIntegers (SplitDots v2) c2 h2 hfit2
  have hc : compareVersions v1 v2 = comparePadded c1 c2 := by
    rw [compareVersions_eq_comparePadded, e1, e2]
  have hlen : (padZeros (max c1.length c2.length) c1).length =
      (padZeros (max c1.length c2.length) c2).length := by
    rw [length_padZeros _ _ (le_max_left _ _), length_padZeros _ _ (le_max_right _ _)]
  obtain ⟨i1, i2, i3⟩ := comparePadded_lex _ _ hlen
  rw [comparePadded_padZeros] at i1 i2 i3
  rw [hc]
  exact ⟨rfl, i1, i2, i3, by decide⟩

theorem compareVersions_lexicographic_witness :
    compareVersions "1.10.0" "1.9" = comparePadded [1, 10, 0] [1, 9] ∧
      compareVersions "1.2" "1.2.0" = 0 :=
  ⟨(compareVersions_lexicographic "1.10.0" "1.9" [1, 10, 0] [1, 9] (by decide) (by decide)
      (by decide) (by decide)).1,
   (compareVersions_lexicographic "1.10.0" "1.9" [1, 10, 0] [1, 9] (by decide) (by decide)
      (by decide) (by decide)).2.2.2.2⟩

/-- C11: the code breaks the claim and its own docstring (1 if v1 > v2) at the versions
"9223372036854775808" and "1". Both are version strings of decimal integer components and the
first component sequence is the greater one, but the component 9223372036854775808 does not fit
the 64-bit int: the scan fails, its error is ignored, the number stays 0, and
compareVersions("9223372036854775808", "1") is -1. -/
theorem compareVersions_overflow :
    versionComponents "9223372036854775808" = some [9223372036854775808] ∧
    versionComponents "1" = some [1] ∧
    comparePadded [9223372036854775808] [1] = 1 ∧
    compareVersions "9223372036854775808" "1" = -1 := by
  decide

/-! ### Debug log level -/

/-- C12: for every string raw, parseEnvLevel(raw) depends only on raw trimmed and lower-cased:
"trace" gives LevelTrace, "verbose" and "debug" give LevelVerbose, "info" gives LevelInfo, "warn"
gives LevelWarn, "error" gives LevelError, "off" gives LevelOff, every other string, the empty one
included, gives LevelVerbose; the result is never UseGlobal. -/
theorem parseEnvLevel_spec (ToLower : String → String) (raw : String) :
    (∀ other : String, ToLower (TrimSpace other) = ToLower (TrimSpace raw) →
      parseEnvLevel ToLower other = parseEnvLevel ToLower raw) ∧
    (ToLower (TrimSpace raw) = "trace" → parseEnvLevel ToLower raw = LevelTrace) ∧
    (ToLower (TrimSpace raw) = "verbose" → parseEnvLevel ToLower raw = LevelVerbose) ∧
    (ToLower (TrimSpace raw) = "debug" → parseEnvLevel ToLower raw = LevelVerbose) ∧
    (ToLower (TrimSpace raw) = "info" → parseEnvLevel ToLower raw = LevelInfo) ∧
    (ToLower (TrimSpace raw) = "warn" → parseEnvLevel ToLower raw = LevelWarn) ∧
    (ToLower (TrimSpace raw) = "error" → parseEnvLevel ToLower raw = LevelError) ∧
    (ToLower (TrimSpace raw) = "off" → parseEnvLevel ToLower raw = LevelOff) ∧
    (ToLower (TrimSpace raw) ∉ ["trace", "verbose", "debug", "info", "warn", "error", "off"] →
      parseEnvLevel ToLower raw = LevelVerbose) ∧
    parseEnvLevel ToLower raw ≠ UseGlobal := by
  refine ⟨?_, ?_, ?_, ?_, ?_, ?_, ?_, ?_, ?_, ?_⟩
  · intro other h
    simp [parseEnvLevel, h]
  · intro h; simp [parseEnvLevel, h, levelOfName]
  · intro h; simp [parseEnvLevel, h, levelOfName]
  · intro h; simp [parseEnvLevel, h, levelOfName]
  · intro h; simp [parseEnvLevel, h, levelOfName]
  · intro h; simp [parseEnvLevel, h, levelOfName]
  · intro h; simp [parseEnvLevel, h, levelOfName]
  · intro h; simp [parseEnvLevel, h, levelOfName]
  · intro h
    simp only [List.mem_cons, List.mem_singleton, List.mem_nil_iff, or_false, not_or] at h
    obtain ⟨h1, h2, h3, h4, h5, h6, h7⟩ := h
    simp [parseEnvLevel, levelOfName, h1, h2, h3, h4, h5, h6, h7]
  · unfold parseEnvLevel levelOfName
    split_ifs <;> decide

theorem parseEnvLevel_spec_witness :
    parseEnvLevel foldCase "  TRACE\t" = LevelTrace ∧
    parseEnvLevel foldCase "" = LevelVerbose ∧
    parseEnvLevel foldCase " Debug " = parseEnvLevel foldCase "debug" :=
  ⟨(parseEnvLevel_spec foldCase "  TRACE\t").2.1 (by decide),
   (parseEnvLevel_spec foldCase "").2.2.2.2.2.2.2.2.1 (by decide),
   (parseEnvLevel_spec foldCase "debug").1 " Debug " (by decide)⟩


/-- C13: `CheckWintunDLL` never returns a non-nil error. Off Windows it returns `(true, nil)`
without asking the filesystem anything; on Windows it returns `(false, nil)` exactly when the stat
of `WintunPath` fails with a not-exist error and `(true, nil)` otherwise. Hence the error branch
of `updateWintunStatus` is never taken: the widgets are left as they were off Windows, and on
Windows they are set by the not-found branch or by the found branch. -/
theorem CheckWintunDLL_never_errors (GOOS WintunPath : String) (stat : String → StatOutcome)
    (w : WintunWidgets) :
    (CheckWintunDLL GOOS WintunPath stat).err = none ∧
    (GOOS ≠ "windows" →
      CheckWintunDLL GOOS WintunPath stat = { dllExists := true, err := none, statCalls := [] }) ∧
    (GOOS = "windows" →
      ((CheckWintunDLL GOOS WintunPath stat).dllExists = false ↔
        stat WintunPath = StatOutcome.notExist) ∧
      ((CheckWintunDLL GOOS WintunPath stat).dllExists = true ↔
        stat WintunPath ≠ StatOutcome.notExist) ∧
      (CheckWintunDLL GOOS WintunPath stat).statCalls = [WintunPath]) ∧
    updateWintunStatus GOOS WintunPath stat w =
      (if GOOS ≠ "windows" then w
       else if stat WintunPath = StatOutcome.notExist then wintunMissing w
       else wintunPresent w) := by
  have herr : (CheckWintunDLL GOOS WintunPath stat).err = none := by
    unfold CheckWintunDLL
    split
    · rfl
    · split <;> rfl
  refine ⟨herr, ?_, ?_, ?_⟩
  · intro h
    simp [CheckWintunDLL, h]
  · intro h
    subst h
    cases hs : stat WintunPath <;> simp [CheckWintunDLL, hs]
  · unfold updateWintunStatus
    by_cases h : GOOS = "windows"
    · subst h
      rw [herr]
      cases hs : stat WintunPath <;> simp [CheckWintunDLL, hs]
    · simp [h]

theorem CheckWintunDLL_never_errors_witness :
    CheckWintunDLL "linux" "bin/wintun.dll" (fun _ => StatOutcome.notExist) =
      { dllExists := true, err := none, statCalls := [] } ∧
    (CheckWintunDLL "windows" "bin/wintun.dll" (fun _ => StatOutcome.notExist)).dllExists
      = false ∧
    (CheckWintunDLL "windows" "bin/wintun.dll"
      (fun _ => StatOutcome.otherError (GoError.library "os" "permission denied"))).dllExists
      = true :=
  ⟨(CheckWintunDLL_never_errors "linux" "bin/wintun.dll" (fun _ => StatOutcome.notExist)
      sampleWintunWidgets).2.1 (by decide),
   (((CheckWintunDLL_never_errors "windows" "bin/wintun.dll" (fun _ => StatOutcome.notExist)
      sampleWintunWidgets).2.2.1 rfl).1).2 rfl,
   (((CheckWintunDLL_never_errors "windows" "bin/wintun.dll"
      (fun _ => StatOutcome.otherError (GoError.library "os" "permission denied"))
      sampleWintunWidgets).2.2.1 rfl).2.1).2 (by decide)⟩

/-- C14: off Windows `DownloadWintunDLL` sends exactly one message, with progress 0, status
`error`, a non-nil error and the message `wintun.dll is only needed on Windows`, and then closes
the channel; it creates no directory or file and downloads nothing. -/
theorem DownloadWintunDLL_off_windows (env : WintunEnv) (h : env.GOOS ≠ "windows") :
    DownloadWintunDLL env =
      [Effect.send { Progress := 0, Message := "wintun.dll is only needed on Windows",
                     Status := "error",
                     Error := some (GoError.errorf "wintun.dll is only needed on Windows") },
       Effect.closeChannel] := by
  simp [DownloadWintunDLL, h, errorProgress]

theorem DownloadWintunDLL_off_windows_witness :
    linuxEnv.GOOS ≠ "windows" ∧
    DownloadWintunDLL linuxEnv =
      [Effect.send { Progress := 0, Message := "wintun.dll is only needed on Windows",
                     Status := "error",
                     Error := some (GoError.errorf "wintun.dll is only needed on Windows") },
       Effect.closeChannel] :=
  ⟨by decide, DownloadWintunDLL_off_windows linuxEnv (by decide)⟩

/-- On the sample Windows machine the download runs to the end: the archive is fetched, the
amd64 library is extracted and installed, the deferred calls run latest first and the channel is
closed last. -/
theorem DownloadWintunDLL_windows_sample :
    DownloadWintunDLL windowsEnv =
      [Effect.mkdirAll "C:/launcher/temp",
       .send { Progress := 10, Message := "Downloading wintun.dll...", Status := "downloading",
               Error := none },
       .download "https://www.wintun.net/builds/wintun-0.14.1.zip"
         "C:/launcher/temp/wintun-0.14.1.zip",
       .send { Progress := 80, Message := "Extracting wintun.dll...", Status := "extracting",
               Error := none },
       .openZip "C:/launcher/temp/wintun-0.14.1.zip",
       .openEntry "wintun/bin/amd64/wintun.dll",
       .createFile "C:/launcher/temp/wintun.dll",
       .copyInto "C:/launcher/temp/wintun.dll",
       .closeFile "C:/launcher/temp/wintun.dll",
       .closeEntry "wintun/bin/amd64/wintun.dll",
       .send { Progress := 90, Message := "Installing wintun.dll...", Status := "extracting",
               Error := none },
       .mkdirAll "C:/launcher/bin",
       .openFile "C:/launcher/temp/wintun.dll",
       .createFile "C:/launcher/bin/wintun.dll",
       .copyInto "C:/launcher/bin/wintun.dll",
       .send { Progress := 100, Message := "wintun.dll v0.14.1 installed successfully!",
               Status := "done", Error := none },
       .closeFile "C:/launcher/bin/wintun.dll",
       .closeFile "C:/launcher/temp/wintun.dll",
       .closeZip "C:/launcher/temp/wintun-0.14.1.zip",
       .removeAll "C:/launcher/temp",
       .closeChannel] := by
  decide


/-- C15: when the installed version and the latest version are both obtained without error,
`updateVersionInfoAsync` shows the enabled button `Update v<latest>` exactly when `latest` is not
empty and `compareVersions installed latest < 0`; in every other case the button is hidden. The
label shows the installed version in both cases. -/
theorem updateVersionInfoAsync_update_button (installed latest : String × Option GoError)
    (w : VersionWidgets) (hi : installed.2 = none) (hl : latest.2 = none) :
    (((updateVersionInfoAsync installed latest w).downloadButton.Visible = true ∧
        (updateVersionInfoAsync installed latest w).downloadButton.Enabled = true ∧
        (updateVersionInfoAsync installed latest w).downloadButton.Text =
          "Update v" ++ latest.1) ↔
      (latest.1 ≠ "" ∧ compareVersions installed.1 latest.1 < 0)) ∧
    ((updateVersionInfoAsync installed latest w).downloadButton.Visible = true ↔
      (latest.1 ≠ "" ∧ compareVersions installed.1 latest.1 < 0)) ∧
    (¬ (latest.1 ≠ "" ∧ compareVersions installed.1 latest.1 < 0) →
      (updateVersionInfoAsync installed latest w).downloadButton =
        { w.downloadButton with Visible := false }) ∧
    (updateVersionInfoAsync installed latest w).singboxStatusLabel.Text = installed.1 := by
  by_cases hc : latest.1 ≠ "" ∧ compareVersions installed.1 latest.1 < 0
  · have hr : updateVersionInfoAsync installed latest w =
        { singboxStatusLabel := { Text := installed.1, Importance := .MediumImportance }
          downloadButton :=
            { Text := "Update v" ++ latest.1, Enabled := true, Visible := true,
              Importance := .HighImportance } } := by
      unfold updateVersionInfoAsync
      simp only [hi, hl]
      rw [if_pos hc]
    rw [hr]
    simp [hc]
  · have hr : updateVersionInfoAsync installed latest w =
        { singboxStatusLabel := { Text := installed.1, Importance := .MediumImportance }
          downloadButton := { w.downloadButton with Visible := false } } := by
      unfold updateVersionInfoAsync
      simp only [hi, hl]
      rw [if_neg hc]
    rw [hr]
    simp [hc]

theorem updateVersionInfoAsync_update_button_witness :
    (updateVersionInfoAsync ("1.8.0", none) ("1.10.2", none) sampleVersionWidgets).downloadButton
        = { Text := "Update v1.10.2", Enabled := true, Visible := true,
            Importance := .HighImportance } ∧
    ((updateVersionInfoAsync ("1.10.2", none) ("1.10.2", none)
        sampleVersionWidgets).downloadButton.Visible = true ↔
      (("1.10.2", (none : Option GoError)).1 ≠ "" ∧ compareVersions "1.10.2" "1.10.2" < 0)) :=
  ⟨by decide,
   (updateVersionInfoAsync_update_button ("1.10.2", none) ("1.10.2", none) sampleVersionWidgets
      rfl rfl).2.1⟩


/-- Setting the saved text on a state with a widget displays it, with one unit of fuel. -/
theorem entrySetText_saved (notifyAlways : Bool) (fuel : Nat) (shown saved : String) :
    entrySetText notifyAlways (fuel + 1)
        { OutboundsPreview := some shown, OutboundsPreviewText := saved } saved =
      { OutboundsPreview := some saved, OutboundsPreviewText := saved } := by
  simp [entrySetText]

/-- Setting any text on a state with a widget ends with the saved text displayed, with two units
of fuel. -/
theorem entrySetText_any (notifyAlways : Bool) (fuel : Nat) (saved text : String) :
    entrySetText notifyAlways (fuel + 2)
        { OutboundsPreview := some saved, OutboundsPreviewText := saved } text =
      { OutboundsPreview := some saved, OutboundsPreviewText := saved } := by
  by_cases h : text = saved
  · subst h
    exact entrySetText_saved notifyAlways (fuel + 1) text text
  · have h2 : ¬ saved = text := fun e => h e.symm
    cases notifyAlways <;> simp [entrySetText, h, h2]

/-- C16: the preview is read-only. In every state reached from the created tab by calls of
`setPreviewText` and by user edits followed by the `OnChanged` handler, the entry displays the
saved text `OutboundsPreviewText`. In such a state `setPreviewText` with a text `t` makes both the
displayed and the saved text `t`, and a user edit leaves both unchanged. This holds whether the
widget notifies its handler on every `SetText` or only on a change. -/
theorem preview_read_only (notifyAlways : Bool) (st : WizardState)
    (h : Reachable notifyAlways st) :
    st.OutboundsPreview = some st.OutboundsPreviewText ∧
    (∀ (fuel : Nat) (t : String), 2 ≤ fuel →
      setPreviewText notifyAlways fuel st t =
        { OutboundsPreview := some t, OutboundsPreviewText := t }) ∧
    (∀ (fuel : Nat) (typed : String), 2 ≤ fuel →
      userEdit notifyAlways fuel st typed = st) := by
  have step_set : ∀ (s : WizardState) (fuel : Nat) (t : String),
      s.OutboundsPreview = some s.OutboundsPreviewText → 2 ≤ fuel →
      setPreviewText notifyAlways fuel s t =
        { OutboundsPreview := some t, OutboundsPreviewText := t } := by
    intro s fuel t hs hf
    obtain ⟨k, rfl⟩ : ∃ k, fuel = k + 1 := ⟨fuel - 1, by omega⟩
    obtain ⟨shown, saved⟩ := s
    simp only at hs
    subst hs
    simp only [setPreviewText]
    exact entrySetText_saved notifyAlways k saved t
  have step_edit : ∀ (s : WizardState) (fuel : Nat) (typed : String),
      s.OutboundsPreview = some s.OutboundsPreviewText → 2 ≤ fuel →
      userEdit notifyAlways fuel s typed = s := by
    intro s fuel typed hs hf
    obtain ⟨k, rfl⟩ : ∃ k, fuel = k + 1 := ⟨fuel - 1, by omega⟩
    obtain ⟨shown, saved⟩ := s
    simp only at hs
    subst hs
    by_cases ht : typed = saved
    · subst ht
      cases notifyAlways <;> simp [userEdit, previewOnChanged]
    · have h2 : ¬ saved = typed := fun e => ht e.symm
      have hk := entrySetText_saved notifyAlways k typed saved
      cases notifyAlways <;> simp [userEdit, previewOnChanged, ht, h2, hk]
  have inv : st.OutboundsPreview = some st.OutboundsPreviewText := by
    induction h with
    | created => rfl
    | setPreview fuel s t hf _ ih => rw [step_set s fuel t ih hf]
    | edited fuel s typed hf _ ih => rw [step_edit s fuel typed ih hf]; exact ih
  exact ⟨inv, fun fuel t hf => step_set st fuel t inv hf,
    fun fuel typed hf => step_edit st fuel typed inv hf⟩

theorem preview_read_only_witness :
    Reachable false (userEdit false 2 (setPreviewText false 2 initialPreview "outbounds") "typed") ∧
    (userEdit false 2 (setPreviewText false 2 initialPreview "outbounds") "typed").OutboundsPreview =
      some "outbounds" ∧
    userEdit false 2 (userEdit false 2 (setPreviewText false 2 initialPreview "outbounds") "typed")
      "again" = userEdit false 2 (setPreviewText false 2 initialPreview "outbounds") "typed" :=
  ⟨Reachable.edited 2 _ "typed" (by decide)
      (Reachable.setPreview 2 _ "outbounds" (by decide) Reachable.created),
   by decide,
   (preview_read_only false _
      (Reachable.edited 2 _ "typed" (by decide)
        (Reachable.setPreview 2 _ "outbounds" (by decide) Reachable.created))).2.2 2 "again"
      (by decide)⟩


/-- C17: after the source-update step of `parseAndPreview` the proxies list is not empty and the
`Source` of its first entry is the URL. When the list was not empty only the `Source` of the first
entry changes: its `Connections` and `Skip` and all other entries stay. When the list was empty it
becomes a single entry that carries only the `Source`. Nothing else of the configuration
changes. -/
theorem updateSource_spec (parserConfig : ParserConfig) (url : String) (hurl : url ≠ "") :
    (parseAndPreview_updateSource parserConfig url).ParserConfig.Proxies ≠ [] ∧
    ((parseAndPreview_updateSource parserConfig url).ParserConfig.Proxies.head?).map
      (fun p => p.Source) = some url ∧
    (∀ first others, parserConfig.ParserConfig.Proxies = first :: others →
      (parseAndPreview_updateSource parserConfig url).ParserConfig.Proxies =
        { Source := url, Connections := first.Connections, Skip := first.Skip } :: others) ∧
    (parserConfig.ParserConfig.Proxies = [] →
      (parseAndPreview_updateSource parserConfig url).ParserConfig.Proxies =
        [{ Source := url, Connections := [], Skip := [] }]) ∧
    (parseAndPreview_updateSource parserConfig url).Version = parserConfig.Version ∧
    (parseAndPreview_updateSource parserConfig url).ParserConfig.Version =
      parserConfig.ParserConfig.Version ∧
    (parseAndPreview_updateSource parserConfig url).ParserConfig.Outbounds =
      parserConfig.ParserConfig.Outbounds ∧
    (parseAndPreview_updateSource parserConfig url).ParserConfig.Parser =
      parserConfig.ParserConfig.Parser := by
  have _ := hurl
  unfold parseAndPreview_updateSource
  cases h : parserConfig.ParserConfig.Proxies with
  | nil => simp
  | cons first others => simp

theorem updateSource_spec_witness :
    ("https://example.com/sub" ≠ "") ∧
    (parseAndPreview_updateSource (testParserConfig ["vless://a", "vless://b"])
      "https://example.com/sub").ParserConfig.Proxies =
      [{ Source := "https://example.com/sub", Connections := ["vless://a", "vless://b"],
         Skip := [] }] :=
  ⟨by decide,
   (updateSource_spec (testParserConfig ["vless://a", "vless://b"]) "https://example.com/sub"
      (by decide)).2.2.1 _ _ rfl⟩

/-- The node loop of the generation step appends the contributions of the nodes. -/
theorem foldl_nodes_eq (generate : ParsedNode → String × Option GoError)
    (nodes : List ParsedNode) (acc : List String) :
    nodes.foldl
      (fun selectorsJSON node =>
        match generate node with
        | (_, some _) => selectorsJSON
        | (nodeJSON, none) => selectorsJSON ++ [nodeJSON]) acc =
      acc ++ nodes.filterMap (nodeContribution generate) := by
  induction nodes generalizing acc with
  | nil => simp
  | cons node rest ih =>
    rw [List.foldl_cons, ih, List.filterMap_cons]
    unfold nodeContribution
    rcases hg : generate node with ⟨json, _ | err⟩ <;> simp

/-- The selector loop of the generation step appends the contributions of the selectors. -/
theorem foldl_selectors_eq (generate : List ParsedNode → OutboundConfig → String × Option GoError)
    (allNodes : List ParsedNode) (outbounds : List OutboundConfig) (acc : List String) :
    outbounds.foldl
      (fun selectorsJSON outboundConfig =>
        match generate allNodes outboundConfig with
        | (_, some _) => selectorsJSON
        | (selectorJSON, none) =>
          if selectorJSON ≠ "" then selectorsJSON ++ [selectorJSON] else selectorsJSON) acc =
      acc ++ outbounds.filterMap (selectorContribution generate allNodes) := by
  induction outbounds generalizing acc with
  | nil => simp
  | cons oc rest ih =>
    rw [List.foldl_cons, ih, List.filterMap_cons]
    unfold selectorContribution
    rcases hg : generate allNodes oc with ⟨json, _ | err⟩
    · by_cases hj : json = "" <;> simp [hj]
    · simp

/-- The list built by the generation step, for every node list and outbound list. -/
theorem selectorsJSON_eq (generateNode : ParsedNode → String × Option GoError)
    (generateSelector : List ParsedNode → OutboundConfig → String × Option GoError)
    (allNodes : List ParsedNode) (outbounds : List OutboundConfig) :
    parseAndPreview_selectorsJSON generateNode generateSelector allNodes outbounds =
      allNodes.filterMap (nodeContribution generateNode) ++
        outbounds.filterMap (selectorContribution generateSelector allNodes) := by
  unfold parseAndPreview_selectorsJSON
  simp only [foldl_nodes_eq, foldl_selectors_eq, List.nil_append]

/-- C18 (as amended): for every non-empty node list and every outbound configuration list, the
preview produced by `parseAndPreview` is the newline-joined sequence of the JSON of every node
whose generation succeeds, in node order, followed by the JSON of every selector whose generation
succeeds with a non-empty result, in outbound order; a selector with an empty result and a node
or selector whose generation fails contribute nothing. For the empty node list the preview is
the text `Error: No valid nodes found in subscription` and no selector is generated. -/
theorem preview_is_joined_json (generateNode : ParsedNode → String × Option GoError)
    (generateSelector : List ParsedNode → OutboundConfig → String × Option GoError)
    (allNodes : List ParsedNode) (outbounds : List OutboundConfig) (h : allNodes ≠ []) :
    parseAndPreview_preview generateNode generateSelector allNodes outbounds =
      Join (allNodes.filterMap (nodeContribution generateNode) ++
        outbounds.filterMap (selectorContribution generateSelector allNodes)) "\n" ∧
    parseAndPreview_preview generateNode generateSelector allNodes outbounds =
      describedPreview generateNode generateSelector allNodes outbounds ∧
    (∀ node, (generateNode node).2 ≠ none → nodeContribution generateNode node = none) ∧
    (∀ outboundConfig, (generateSelector allNodes outboundConfig).2 ≠ none ∨
        (generateSelector allNodes outboundConfig).1 = "" →
      selectorContribution generateSelector allNodes outboundConfig = none) ∧
    parseAndPreview_preview generateNode generateSelector [] outbounds =
      "Error: No valid nodes found in subscription" := by
  have hlen : ¬ allNodes.length = 0 := by
    cases allNodes with
    | nil => exact absurd rfl h
    | cons a l => simp
  have hmain : parseAndPreview_preview generateNode generateSelector allNodes outbounds =
      Join (allNodes.filterMap (nodeContribution generateNode) ++
        outbounds.filterMap (selectorContribution generateSelector allNodes)) "\n" := by
    unfold parseAndPreview_preview
    rw [if_neg hlen, selectorsJSON_eq]
  refine ⟨hmain, hmain, ?_, ?_, ?_⟩
  · intro node hn
    unfold nodeContribution
    rcases hg : generateNode node with ⟨json, _ | err⟩
    · rw [hg] at hn; exact absurd rfl hn
    · rfl
  · intro oc hoc
    unfold selectorContribution
    rcases hg : generateSelector allNodes oc with ⟨json, _ | err⟩
    · rw [hg] at hoc
      rcases hoc with hoc | hoc
      · exact absurd rfl hoc
      · simp only at hoc
        simp [hoc]
    · rfl
  · simp [parseAndPreview_preview]

theorem preview_is_joined_json_witness :
    [sampleNode "n1", sampleNode "bad", sampleNode "n2"] ≠ [] ∧
    parseAndPreview_preview sampleNodeJSON sampleSelectorJSON
        [sampleNode "n1", sampleNode "bad", sampleNode "n2"]
        [sampleOutbound "s1", sampleOutbound "empty", sampleOutbound "bad", sampleOutbound "s2"] =
      describedPreview sampleNodeJSON sampleSelectorJSON
        [sampleNode "n1", sampleNode "bad", sampleNode "n2"]
        [sampleOutbound "s1", sampleOutbound "empty", sampleOutbound "bad", sampleOutbound "s2"] ∧
    describedPreview sampleNodeJSON sampleSelectorJSON
        [sampleNode "n1", sampleNode "bad", sampleNode "n2"]
        [sampleOutbound "s1", sampleOutbound "empty", sampleOutbound "bad", sampleOutbound "s2"] =
      "n1\nn2\ns1\ns2" :=
  ⟨by simp,
   (preview_is_joined_json sampleNodeJSON sampleSelectorJSON
      [sampleNode "n1", sampleNode "bad", sampleNode "n2"]
      [sampleOutbound "s1", sampleOutbound "empty", sampleOutbound "bad", sampleOutbound "s2"]
      (by simp)).2.1,
   by decide⟩

/-- C18, the claim as worded fails on the empty node list: with one selector whose generation
succeeds with the text `s1`, the described preview is `s1`, and `parseAndPreview` shows
`Error: No valid nodes found in subscription`. -/
theorem preview_empty_node_list :
    describedPreview sampleNodeJSON sampleSelectorJSON [] [sampleOutbound "s1"] = "s1" ∧
    parseAndPreview_preview sampleNodeJSON sampleSelectorJSON [] [sampleOutbound "s1"] =
      "Error: No valid nodes found in subscription" ∧
    parseAndPreview_preview sampleNodeJSON sampleSelectorJSON [] [sampleOutbound "s1"] ≠
      describedPreview sampleNodeJSON sampleSelectorJSON [] [sampleOutbound "s1"] := by
  decide

/-- C19: `serializeParserConfig` fails with the error `parserConfig is nil` exactly when its
argument is nil. For a non-nil configuration the object handed to the JSON encoder has exactly
the top-level keys `version`, holding the top-level `Version`, and `ParserConfig`, which has
exactly the keys `proxies` and `outbounds`; the result is the encoding of that object, so it is
the same for configurations that differ only in the nested version and in the parser reload and
last-updated settings. -/
theorem serializeParserConfig_spec (marshalIndent : GoValue → Except String String)
    (parserConfig : Option ParserConfig) :
    ((serializeParserConfig marshalIndent parserConfig).2 =
        some (GoError.errorf "parserConfig is nil") ↔ parserConfig = none) ∧
    (parserConfig = none →
      serializeParserConfig marshalIndent parserConfig =
        ("", some (GoError.errorf "parserConfig is nil"))) ∧
    (∀ cfg, parserConfig = some cfg →
      (configToSerialize cfg).keys = ["version", "ParserConfig"] ∧
      (configToSerialize cfg).field "version" = some (GoValue.int cfg.Version) ∧
      (configToSerialize cfg).field "ParserConfig" =
        some (GoValue.map [("proxies", GoValue.proxySources cfg.ParserConfig.Proxies),
                           ("outbounds", GoValue.outboundConfigs cfg.ParserConfig.Outbounds)]) ∧
      (∀ inner, (configToSerialize cfg).field "ParserConfig" = some inner →
        inner.keys = ["proxies", "outbounds"]) ∧
      serializeParserConfig marshalIndent parserConfig =
        (match marshalIndent (configToSerialize cfg) with
         | .error msg => ("", some (GoError.library "encoding/json" msg))
         | .ok data => (data, none)) ∧
      (∀ (nestedVersion : Int) (parser : ParserSettings),
        serializeParserConfig marshalIndent
          (some { cfg with
                  ParserConfig :=
                    { cfg.ParserConfig with Version := nestedVersion, Parser := parser } }) =
          serializeParserConfig marshalIndent parserConfig)) := by
  refine ⟨?_, ?_, ?_⟩
  · cases parserConfig with
    | none => simp [serializeParserConfig]
    | some cfg =>
      simp only [serializeParserConfig, reduceCtorEq, iff_false]
      cases marshalIndent (configToSerialize cfg) <;> simp
  · intro h
    subst h
    rfl
  · intro cfg h
    subst h
    refine ⟨rfl, ?_, ?_, ?_, rfl, ?_⟩
    · simp [configToSerialize, GoValue.field, List.lookup]
    · simp [configToSerialize, GoValue.field, List.lookup]
    · intro inner hin
      simp [configToSerialize, GoValue.field, List.lookup] at hin
      subst hin
      rfl
    · intro v p
      rfl

theorem serializeParserConfig_spec_witness :
    serializeParserConfig (fun _ => Except.ok "text") none =
      ("", some (GoError.errorf "parserConfig is nil")) ∧
    (configToSerialize (testParserConfig [])).keys = ["version", "ParserConfig"] ∧
    serializeParserConfig (fun _ => Except.ok "text") (some (testParserConfig [])) =
      ("text", none) :=
  ⟨(serializeParserConfig_spec (fun _ => Except.ok "text") none).2.1 rfl,
   ((serializeParserConfig_spec (fun _ => Except.ok "text") (some (testParserConfig []))).2.2
      (testParserConfig []) rfl).1,
   by simp [serializeParserConfig]⟩

end SingboxLauncher
